import Mathlib

/-!
swagger-tools: the swagger-metadata middleware and its initialization

A shallow embedding of `middleware/swagger-metadata.js` and of `initializeMiddleware` in
`index.js`.

* JavaScript strings are `String`; the string primitives the source uses
  (`charAt`, `substring(1)`, `replace`, `split(';')[0]`, `toLowerCase`) are
  written over the character list so that they evaluate structurally.
* A JavaScript object used as an insertion-ordered map (`resolved.paths`,
  `apiCache`, `cacheEntry.operations`, `swaggerMetadata.params`) is an
  association list in insertion order; assigning to an existing key keeps the
  key's position, assigning to a new key appends. The object `params` is keyed by parameter
  names, which a document chooses, so its prototype is kept beside its own properties: the
  key `__proto__` replaces the prototype.
* `undefined` fields are `Option`; a thrown exception is `Except.error`.
* A property read `o[k]` finds own properties only: request paths begin with `/` and HTTP
  methods are method tokens, so neither names a property inherited from `Object.prototype`.
* Packages and helper modules the file requires but does not define
  (`parseurl`, `regex-escape`, `path-to-regexp`, `body-parser`, `multer`,
  `./helpers`, `../lib/helpers`) are the fields of `Lib`; every definition takes
  the library as a parameter.
-/

set_option autoImplicit false

namespace SwaggerTools

/-! ## JavaScript primitives -/

/-- The expression `s.charAt(0) === c`. -/
def startsWithChar (s : List Char) (c : Char) : Bool :=
  match s with
  | [] => false
  | x :: _ => x == c

/-- The expression `s.charAt(s.length - 1) === c`. -/
def endsWithChar (s : List Char) (c : Char) : Bool :=
  match s.getLast? with
  | none => false
  | some x => x == c

/-- The expression `s.substring(1)`. -/
def substring1 (s : List Char) : List Char := s.drop 1

/-- The expression `s.replace(/{/g, ':').replace(/}/g, '')`. -/
def replaceBraces (s : List Char) : List Char :=
  (s.map (fun c => if c == '{' then ':' else c)).filter (fun c => c != '}')

/-- The expression `s.split(';')[0]`. -/
def splitSemicolonHead (s : List Char) : List Char := s.takeWhile (fun c => c != ';')

/-- The expression `s.toLowerCase()` (on the ASCII range, which covers HTTP methods and Swagger type names). -/
def toLowerCase (s : String) : String := String.mk (s.data.map Char.toLower)

/-- The expression `o[k]` on an insertion-ordered object. -/
def objGet {α : Type} (o : List (String × α)) (k : String) : Option α := o.lookup k

/-- The expression `o[k] = v` on an insertion-ordered object: an existing key keeps its position. -/
def objSet {α : Type} (o : List (String × α)) (k : String) (v : α) : List (String × α) :=
  match o with
  | [] => [(k, v)]
  | (k0, v0) :: rest => if k0 == k then (k, v) :: rest else (k0, v0) :: objSet rest k v

/-- A JSON-like JavaScript value (raw and converted parameter values, parsed bodies);
`undefined` is the `none` of an `Option JsValue`. -/
inductive JsValue where
  | null : JsValue
  | bool (b : Bool) : JsValue
  | num (n : Int) : JsValue
  | str (s : String) : JsValue
  | arr (items : List JsValue) : JsValue
  | obj (fields : List (String × JsValue)) : JsValue

/-! ## Data model -/

/-- A security requirement object: scheme name to scopes. -/
abbrev SecurityRequirement := List (String × List String)

/-- The schema nested in a body parameter. -/
structure Schema where
  type : Option String
  ref : Option String
  deriving DecidableEq, Repr

/-- A parameter declaration. The field `in_` is the JavaScript property `in`. -/
structure Parameter where
  name : String
  in_ : String
  type : Option String
  format : Option String
  collectionFormat : Option String
  schema : Option Schema
  deriving DecidableEq, Repr

/-- An operation declared under a path for one HTTP method. -/
structure Operation where
  parameters : Option (List Parameter)
  security : Option (List SecurityRequirement)
  deriving DecidableEq, Repr

/-- A path item; `handleSubpaths` is the property `x-swagger-router-handle-subpaths`. -/
structure PathItem where
  parameters : Option (List Parameter)
  get : Option Operation
  put : Option Operation
  post : Option Operation
  delete : Option Operation
  options : Option Operation
  head : Option Operation
  patch : Option Operation
  handleSubpaths : Option Bool
  deriving DecidableEq, Repr

/-- The expression `path[method]` for the method names the cache construction reads. -/
def PathItem.op (p : PathItem) (method : String) : Option Operation :=
  if method = "get" then p.get
  else if method = "put" then p.put
  else if method = "post" then p.post
  else if method = "delete" then p.delete
  else if method = "options" then p.options
  else if method = "head" then p.head
  else if method = "patch" then p.patch
  else none

/-- A Swagger object. -/
structure Document where
  basePath : Option String
  paths : Option (List (String × PathItem))
  security : Option (List SecurityRequirement)
  deriving DecidableEq, Repr

/-- The first argument of the module: `undefined`, a value that is not a plain object, or a document. -/
inductive DocArg where
  | undefined : DocArg
  | notPlainObject : DocArg
  | doc (d : Document) : DocArg

/-- An element of the composed parameter list: `{path, schema}`. -/
structure ComposedParameter where
  path : List String
  schema : Parameter
  deriving DecidableEq, Repr

/-- A key recorded by path-to-regexp for one capture group. -/
structure Key where
  name : String
  deriving DecidableEq, Repr

/-- A compiled regular expression: its `toString()` and its `exec`. -/
structure RegExp where
  source : String
  exec : String → Option (List String)

/-- An element of `cacheEntry.operations`. -/
structure OperationEntry where
  operation : Operation
  operationPath : List String
  operationParameters : List ComposedParameter
  deriving DecidableEq, Repr

/-- The pair `swaggerObject: {original, resolved}`. -/
structure SwaggerObject where
  original : Document
  resolved : Document
  deriving DecidableEq, Repr

/-- An entry of `apiCache`. -/
structure CacheEntry where
  apiPath : String
  path : PathItem
  keys : List Key
  re : RegExp
  operations : List (String × OperationEntry)
  swaggerObject : SwaggerObject

/-- The object `apiCache`. -/
abbrev ApiCache := List (String × CacheEntry)

/-- An element of `swaggerMetadata.params`. -/
structure ParamValue where
  path : List String
  schema : Parameter
  originalValue : Option JsValue
  value : Option JsValue

/-- The object attached as `req.swagger`. -/
structure Metadata where
  apiPath : String
  path : PathItem
  params : List (String × ParamValue)
  swaggerObject : Document
  operation : Option Operation
  operationPath : Option (List String)
  operationParameters : Option (List ComposedParameter)
  security : Option (List SecurityRequirement)
  /-- The prototype of `params` once an assignment to the key `__proto__` has replaced it; `none`
  stands for `Object.prototype`. -/
  paramsPrototype : Option ParamValue

/-- The request fields the middleware reads and writes. -/
structure Request where
  method : String
  url : String
  contentType : Option String
  query : Option JsValue
  body : Option JsValue
  files : Option JsValue
  swagger : Option Metadata

/-- A multer field descriptor `{name, maxCount}`. -/
structure MultiPartField where
  name : String
  maxCount : Nat
  deriving DecidableEq, Repr

/-- The functions pushed onto the parser list. The three upstream wrappers are module-level
singletons; a multipart wrapper is made per call from `multer#fields` or `multer#array`. -/
inductive RequestParser where
  | queryParser : RequestParser
  | textBodyParser : RequestParser
  | bodyParser : RequestParser
  | multiPartFields (fields : List MultiPartField) : RequestParser
  | multiPartArray : RequestParser
  deriving DecidableEq, Repr

/-- Whether a parser is one made by `makeMultiPartParser`. -/
def isMultiPart : RequestParser → Bool
  | .multiPartFields _ => true
  | .multiPartArray => true
  | _ => false

/-- The required packages and helper modules. A parser returns the new value of the request
field(s) it populates, or the error it hands to its callback. -/
structure Lib where
  /-- The call `parseurl({url}).pathname`; `none` is a null pathname. -/
  pathname : String → Option String
  /-- The call `regexEscape(str)`. -/
  regexEscape : String → String
  /-- The call `pathToRegexp(str, keys, {end})`: the expression and the keys pushed, or a thrown error. -/
  pathToRegexp : String → Bool → Except String (RegExp × List Key)
  /-- The call `spec.resolve(rlOrSO, callback)`: the resolved document handed to the callback. -/
  resolve : Document → Option Document
  /-- The call `mHelpers.getParameterType(schema)`. -/
  getParameterType : Parameter → String
  /-- The call `mHelpers.isModelType(spec, type)`. -/
  isModelType : String → Bool
  /-- The call `mHelpers.parseQueryString(req)`. -/
  parseQueryString : Request → Option JsValue
  /-- The call `bp.text({type: '*/*'})`: the new `req.body`. -/
  realTextBodyParser : Request → Except String (Option JsValue)
  /-- The call `bp.urlencoded({extended: false})`: the new `req.body`. -/
  urlEncodedBodyParser : Request → Except String (Option JsValue)
  /-- The call `bp.json()`: the new `req.body`. -/
  jsonBodyParser : Request → Except String (Option JsValue)
  /-- The call `multer(...).fields(fields)`: the new `req.body` and `req.files`. -/
  multerFields : List MultiPartField → Request → Except String (Option JsValue × Option JsValue)
  /-- The call `multer(...).array()`: the new `req.body` and `req.files`. -/
  multerArray : Request → Except String (Option JsValue × Option JsValue)
  /-- The call `mHelpers.getParameterValue(parameter, pathKeys, pathMatch, req, debug)`. -/
  getParameterValue : Parameter → List Key → Option (List String) → Request → Option JsValue
  /-- The call `mHelpers.convertValue(value, schema, type, location)`. -/
  convertValue : Option JsValue → Parameter ⊕ Schema → String → String → Option JsValue

/-! ## Helper functions -/

/-- The function `expressStylePath(basePath, apiPath)`. -/
def expressStylePath (lib : Lib) (basePath : Option String) (apiPath : String) : String :=
  -- basePath = parseurl({url: basePath || '/'}).pathname || '/'
  let url : String := match basePath with
    | none => "/"
    | some b => if b = "" then "/" else b
  let basePath0 : List Char := match lib.pathname url with
    | none => ['/']
    | some p => if p = "" then ['/'] else p.data
  let basePath1 := if !startsWithChar basePath0 '/' then '/' :: basePath0 else basePath0
  let basePath2 := if !endsWithChar basePath1 '/' then basePath1 ++ ['/'] else basePath1
  let apiPath1 := if startsWithChar apiPath.data '/' then substring1 apiPath.data else apiPath.data
  String.mk (replaceBraces (basePath2 ++ apiPath1))

/-- The string `parameter.name + ':' + parameter.in` pushed onto `seenParams`. -/
def seenKey (parameter : Parameter) : String := parameter.name ++ ":" ++ parameter.in_

/-- The first `_.each` of `composeParameters`: the entries for the operation's parameters. -/
def operationEntries (apiPath : List String) (method : String) (ps : List Parameter) :
    List ComposedParameter :=
  ps.enum.map (fun ip =>
    { path := apiPath ++ [method, "parameters", toString ip.1], schema := ip.2 })

/-- The second `_.each` of `composeParameters`: the entries for the unseen path parameters. -/
def pathEntries (apiPath : List String) (seenParams : List String) (ps : List Parameter) :
    List ComposedParameter :=
  (ps.enum.filter (fun ip => !(seenParams.contains (seenKey ip.2)))).map (fun ip =>
    { path := apiPath ++ ["parameters", toString ip.1], schema := ip.2 })

/-- The function `composeParameters(apiPath, method, path, operation)`. -/
def composeParameters (apiPath : List String) (method : String) (path : PathItem)
    (operation : Operation) : List ComposedParameter :=
  let opParams := operation.parameters.getD []
  let cParams := operationEntries apiPath method opParams
  let seenParams := opParams.map seenKey
  cParams ++ pathEntries apiPath seenParams (path.parameters.getD [])

/-- The variable `handleSubPaths` of `createCacheEntry`:
`!(rlOrSO.paths && rlOrSO.paths[apiPath]['x-swagger-router-handle-subpaths'])`.
Reading the property of a path the original document does not hold throws. -/
def handleSubPaths (rlOrSO : Document) (apiPath : String) : Except String Bool :=
  match rlOrSO.paths with
  | none => .ok true
  | some ps =>
    match objGet ps apiPath with
    | none => .error "TypeError"
    | some item => .ok (!(item.handleSubpaths == some true))

/-- The function `createCacheEntry(adOrSO, apiOrPath, indexOrName, indent)`: the cache after the assignment
`apiCache[cacheKey] = cacheEntry`, the key, and the entry returned. -/
def createCacheEntry (lib : Lib) (rlOrSO : Document) (apiCache : ApiCache) (adOrSO : Document)
    (apiOrPath : PathItem) (indexOrName : String) :
    Except String (ApiCache × String × CacheEntry) :=
  let apiPath := indexOrName
  let expressPath := expressStylePath lib adOrSO.basePath indexOrName
  match handleSubPaths rlOrSO apiPath with
  | .error e => .error e
  | .ok endOpt =>
    match lib.pathToRegexp (lib.regexEscape expressPath) endOpt with
    | .error e => .error e
    | .ok (re, keys) =>
      let cacheKey0 := re.source
      -- This is an absolute path, use it as the cache key
      let cacheKey := if !(expressPath.data.contains '{') then expressPath else cacheKey0
      let cacheEntry : CacheEntry :=
        { apiPath := indexOrName
          path := apiOrPath
          keys := keys
          re := re
          operations := []
          swaggerObject := { original := rlOrSO, resolved := adOrSO } }
      .ok (objSet apiCache cacheKey cacheEntry, cacheKey, cacheEntry)

/-- The method names iterated for every path. -/
def methods : List String := ["get", "put", "post", "delete", "options", "head", "patch"]

/-- The inner `_.each` over the methods: the `operations` object of one path. -/
def buildOperations (path : PathItem) (pathName : String) : List (String × OperationEntry) :=
  methods.foldl (fun ops method =>
    match path.op method with
    | none => ops
    | some operation =>
      objSet ops method
        { operation := operation
          operationPath := ["paths", pathName, method]
          operationParameters := composeParameters ["paths", pathName] method path operation })
    []

/-- The outer `_.each(resolved.paths, ...)`, over the paths still to visit. The entry returned
by `createCacheEntry` is the object stored in the cache, so filling its `operations` updates the
cache in place. -/
def buildCache (lib : Lib) (rlOrSO resolved : Document) :
    List (String × PathItem) → ApiCache → Except String ApiCache
  | [], apiCache => .ok apiCache
  | (pathName, path) :: rest, apiCache =>
    match createCacheEntry lib rlOrSO apiCache resolved path pathName with
    | .error e => .error e
    | .ok (apiCache1, cacheKey, cacheEntry) =>
      buildCache lib rlOrSO resolved rest
        (objSet apiCache1 cacheKey { cacheEntry with operations := buildOperations path pathName })

/-- The function `processSwaggerDocuments(rlOrSO, apiDeclarations)`. -/
def processSwaggerDocuments (lib : Lib) (rlOrSO : DocArg) : Except String ApiCache :=
  match rlOrSO with
  | .undefined => .error "rlOrSO is required"
  | .notPlainObject => .error "rlOrSO must be an object"
  | .doc d =>
    match lib.resolve d with
    | none => .error "TypeError"
    | some resolved => buildCache lib d resolved (resolved.paths.getD []) []

/-! ## Parameter processing -/

/-- The expression `contentType && contentType.split(';')[0] === 'multipart/form-data'`. -/
def isMultipartFormData (contentType : Option String) : Bool :=
  match contentType with
  | none => false
  | some ct => ct != "" && String.mk (splitSemicolonHead ct.data) == "multipart/form-data"

/-- The `switch` of the first `_.reduce`: the parser one parameter asks for, if any. -/
def selectParser (lib : Lib) (contentType : Option String) (parameter : ComposedParameter) :
    Option RequestParser :=
  let paramLocation := parameter.schema.in_
  let paramType := lib.getParameterType parameter.schema
  let parsableBody := lib.isModelType paramType || ["array", "object"].contains paramType
  if paramLocation = "body" ∨ paramLocation = "form" ∨ paramLocation = "formData" then
    if toLowerCase paramType = "file" ∨ isMultipartFormData contentType = true then
      -- Do not add a parser, multipart will be handled after
      none
    else if paramLocation ≠ "body" ∨ parsableBody = true then
      some .bodyParser
    else
      some .textBodyParser
  else if paramLocation = "query" then
    some .queryParser
  else
    none

/-- The statement `if (parser && requestParsers.indexOf(parser) === -1) { requestParsers.push(parser); }`. -/
def pushParser (requestParsers : List RequestParser) (parser : Option RequestParser) :
    List RequestParser :=
  match parser with
  | none => requestParsers
  | some p => if requestParsers.contains p then requestParsers else requestParsers ++ [p]

/-- The first `_.reduce`: a parser is pushed only when the list does not hold it yet. -/
def upstreamParsers (lib : Lib) (contentType : Option String)
    (parameters : List ComposedParameter) : List RequestParser :=
  parameters.foldl (fun requestParsers parameter =>
    pushParser requestParsers (selectParser lib contentType parameter)) []

/-- The second `_.reduce`: the multer fields of the file parameters. -/
def multiPartFields (lib : Lib) (parameters : List ComposedParameter) : List MultiPartField :=
  parameters.filterMap (fun parameter =>
    let paramLocation := parameter.schema.in_
    let paramType := lib.getParameterType parameter.schema
    let paramName := parameter.schema.name
    if paramLocation = "body" ∨ paramLocation = "form" ∨ paramLocation = "formData" then
      if toLowerCase paramType = "file" then some { name := paramName, maxCount := 1 } else none
    else none)

/-- The list `parsers` handed to `async.map`. -/
def requestParsers (lib : Lib) (contentType : Option String)
    (parameters : List ComposedParameter) : List RequestParser :=
  let parsers := upstreamParsers lib contentType parameters
  let fields := multiPartFields lib parameters
  if fields.length ≠ 0 then
    parsers ++ [.multiPartFields fields]
  else if isMultipartFormData contentType then
    parsers ++ [.multiPartArray]
  else
    parsers

/-- What a middleware leaves behind: the request as mutated and the argument of its call to
`next` (`none` for `next()`). -/
structure Outcome where
  req : Request
  next : Option String

/-- The upstream wrappers `queryParser`, `textBodyParser`, `bodyParser` and the function made by
`makeMultiPartParser`: the request afterwards and the argument handed to the callback. -/
def runParser (lib : Lib) (parser : RequestParser) (req : Request) : Outcome :=
  match parser with
  | .queryParser =>
    if req.query.isNone then
      { req := { req with query := lib.parseQueryString req }, next := none }
    else
      { req := req, next := none }
  | .textBodyParser =>
    if req.body.isNone then
      match lib.realTextBodyParser req with
      | .error err => { req := req, next := some err }
      | .ok body => { req := { req with body := body }, next := none }
    else
      { req := req, next := none }
  | .bodyParser =>
    if req.body.isNone then
      match lib.urlEncodedBodyParser req with
      | .error err => { req := req, next := some err }
      | .ok body =>
        let req1 := { req with body := body }
        match lib.jsonBodyParser req1 with
        | .error err => { req := req1, next := some err }
        | .ok body1 => { req := { req1 with body := body1 }, next := none }
    else
      { req := req, next := none }
  | .multiPartFields fields =>
    if req.files.isNone then
      match lib.multerFields fields req with
      | .error err => { req := req, next := some err }
      | .ok (body, files) => { req := { req with body := body, files := files }, next := none }
    else
      { req := req, next := none }
  | .multiPartArray =>
    if req.files.isNone then
      match lib.multerArray req with
      | .error err => { req := req, next := some err }
      | .ok (body, files) => { req := { req with body := body, files := files }, next := none }
    else
      { req := req, next := none }

/-- The call `async.map(parsers, ...)`: the parsers are started in list order and each is run to its
callback; the first error is the one reported and ends the run. -/
def runParsers (lib : Lib) : List RequestParser → Request → Outcome
  | [], req => { req := req, next := none }
  | parser :: rest, req =>
    match runParser lib parser req with
    | { req := req1, next := none } => runParsers lib rest req1
    | { req := req1, next := some err } => { req := req1, next := some err }

/-- The assignment `params[name] = value` on the plain object `params`, given as its own
properties and its prototype: the key `__proto__` reaches the setter inherited from
`Object.prototype`, which makes the value the prototype of `params` and adds no key; any other
key becomes, or stays, an own property. -/
def assignParam (params : List (String × ParamValue) × Option ParamValue) (name : String)
    (value : ParamValue) : List (String × ParamValue) × Option ParamValue :=
  if name = "__proto__" then (params.1, some value) else (objSet params.1 name value, params.2)

/-- The body of the final `_.each`: the assignment `swaggerMetadata.params[parameter.name] = ...`. -/
def extractParameter (lib : Lib) (pathKeys : List Key) (pathMatch : Option (List String))
    (req : Request) (params : List (String × ParamValue) × Option ParamValue)
    (parameterOrMetadata : ComposedParameter) :
    List (String × ParamValue) × Option ParamValue :=
  let parameter := parameterOrMetadata.schema
  let pLocation := parameter.in_
  let pType := lib.getParameterType parameter
  let oVal := lib.getParameterValue parameter pathKeys pathMatch req
  let schemaArg : Parameter ⊕ Schema := match parameter.schema with
    | none => .inl parameter
    | some sch => .inr sch
  let value := lib.convertValue oVal schemaArg pType pLocation
  assignParam params parameter.name
    { path := parameterOrMetadata.path, schema := parameter, originalValue := oVal, value := value }

/-- The function `processOperationParameters(swaggerMetadata, pathKeys, pathMatch, req, res, next)`;
`swaggerMetadata` is the object already attached as `req.swagger`. -/
def processOperationParameters (lib : Lib) (swaggerMetadata : Metadata) (pathKeys : List Key)
    (pathMatch : Option (List String)) (req : Request) : Outcome :=
  match swaggerMetadata.operationParameters with
  | none => { req := req, next := none }
  | some parameters =>
    match runParsers lib (requestParsers lib req.contentType parameters) req with
    | { req := req1, next := some err } => { req := req1, next := some err }
    | { req := req1, next := none } =>
      let params := parameters.foldl (extractParameter lib pathKeys pathMatch req1)
        (swaggerMetadata.params, swaggerMetadata.paramsPrototype)
      let metadata := { swaggerMetadata with params := params.1, paramsPrototype := params.2 }
      { req := { req1 with swagger := some metadata }, next := none }

/-! ## The middleware -/

/-- A pathname used as a property key or as the argument of `exec`: `null` reads `"null"`. -/
def jsString (s : Option String) : String := s.getD "null"

/-- The assignment `cacheEntry = apiCache[path] || _.find(apiCache, ...)` together with the
variable `match` the callback of `_.find` leaves behind. -/
def selectEntry (apiCache : ApiCache) (path : String) :
    Option (CacheEntry × Option (List String)) :=
  match objGet apiCache path with
  | some cacheEntry => some (cacheEntry, none)
  | none =>
    match apiCache.find? (fun kv => (kv.2.re.exec path).isSome) with
    | some kv => some (kv.2, kv.2.re.exec path)
    | none => none

/-- The expression `metadata.operation.security || metadata.swaggerObject.security || []`; an array, empty or
not, is truthy. -/
def securityOf (operation : Operation) (swaggerObject : Document) : List SecurityRequirement :=
  match operation.security with
  | some s => s
  | none =>
    match swaggerObject.security with
    | some s => s
    | none => []

/-- The object `metadata` as it stands when it is assigned to `req.swagger`. -/
def makeMetadata (cacheEntry : CacheEntry) (method : String) : Metadata :=
  let metadata : Metadata :=
    { apiPath := cacheEntry.apiPath
      path := cacheEntry.path
      params := []
      swaggerObject := cacheEntry.swaggerObject.resolved
      operation := none
      operationPath := none
      operationParameters := none
      security := none
      paramsPrototype := none }
  match objGet cacheEntry.operations method with
  | some entry =>
    { metadata with
      operation := some entry.operation
      operationPath := some entry.operationPath
      operationParameters := some entry.operationParameters
      security := some (securityOf entry.operation metadata.swaggerObject) }
  | none => metadata

/-- The function `swaggerMetadata(req, res, next)` over a built cache. -/
def swaggerMetadata (lib : Lib) (apiCache : ApiCache) (req : Request) : Outcome :=
  let method := toLowerCase req.method
  let path := jsString (lib.pathname req.url)
  match selectEntry apiCache path with
  | none =>
    -- Request does not match an API defined in the Swagger document(s)
    { req := req, next := none }
  | some (cacheEntry, pathMatch) =>
    let metadata := makeMetadata cacheEntry method
    let req1 := { req with swagger := some metadata }
    if metadata.operation.isSome then
      processOperationParameters lib metadata cacheEntry.keys pathMatch req1
    else
      { req := req1, next := none }

/-- The module export: the cache is built once, the middleware closes over it. -/
def middleware (lib : Lib) (rlOrSO : DocArg) : Except String (Request → Outcome) :=
  match processSwaggerDocuments lib rlOrSO with
  | .error e => .error e
  | .ok apiCache => .ok (swaggerMetadata lib apiCache)

/-- The request field an upstream wrapper tests with `_.isUndefined` before it invokes the parser
it wraps: `req.query`, `req.body` or `req.files`. -/
def guardField (parser : RequestParser) (req : Request) : Option JsValue :=
  match parser with
  | .queryParser => req.query
  | .textBodyParser => req.body
  | .bodyParser => req.body
  | .multiPartFields _ => req.files
  | .multiPartArray => req.files

/-- The expression `basePath || '/'`. -/
def baseOrRoot (basePath : Option String) : String :=
  match basePath with
  | none => "/"
  | some b => if b = "" then "/" else b

/-- The expression `parseurl({url: basePath || '/'}).pathname || '/'`. -/
def basePathname (lib : Lib) (basePath : Option String) : List Char :=
  match lib.pathname (baseOrRoot basePath) with
  | none => ['/']
  | some p => if p = "" then ['/'] else p.data

/-- A base path normalized as the shape of an express-style path is worded: made to begin and to
end with `/`. -/
def slashDelimited (base : List Char) : List Char :=
  let b := if base.head? = some '/' then base else '/' :: base
  if b.getLast? = some '/' then b else b ++ ['/']

/-- A template with one leading `/` removed. -/
def withoutLeadingSlash (template : List Char) : List Char :=
  match template with
  | [] => []
  | c :: rest => if c = '/' then rest else c :: rest

/-- The object the final `_.each` stores for one composed parameter:
`{path, schema, originalValue, value}`. -/
def paramValueOf (lib : Lib) (pathKeys : List Key) (pathMatch : Option (List String))
    (req : Request) (c : ComposedParameter) : ParamValue :=
  { path := c.path
    schema := c.schema
    originalValue := lib.getParameterValue c.schema pathKeys pathMatch req
    value := lib.convertValue (lib.getParameterValue c.schema pathKeys pathMatch req)
      (match c.schema.schema with
        | none => .inl c.schema
        | some sch => .inr sch)
      (lib.getParameterType c.schema) c.schema.in_ }

/-! ## Initialization (`index.js`) -/

/-- An element of the `errors` or `warnings` of a validation result. -/
structure ValidationIssue where
  code : String
  message : String
  path : List String
  deriving DecidableEq, Repr

/-- The validation result of one API declaration. -/
structure ApiDeclarationResult where
  errors : List ValidationIssue
  warnings : List ValidationIssue
  deriving DecidableEq, Repr

/-- The object `results` handed over by `spec.validate`. -/
structure ValidationResults where
  errors : List ValidationIssue
  warnings : List ValidationIssue
  apiDeclarations : Option (List (Option ApiDeclarationResult))
  deriving DecidableEq, Repr

/-- An error object: its constructor name, its message and the two properties the validation
callback sets. -/
structure JsError where
  name : String
  message : String
  failedValidation : Bool
  results : Option ValidationResults
  deriving DecidableEq, Repr

/-- The value of `new Error(message)`. -/
def newError (message : String) : JsError :=
  { name := "Error", message := message, failedValidation := false, results := none }

/-- The value of `new TypeError(message)`. -/
def newTypeError (message : String) : JsError :=
  { name := "TypeError", message := message, failedValidation := false, results := none }

/-- What the callback is called with: the object of middleware wrappers made for the document, or
an error. -/
inductive CallbackValue where
  | middleware (rlOrSO : Document) : CallbackValue
  | error (err : JsError) : CallbackValue
  deriving DecidableEq, Repr

/-- The second argument `arguments[1]`: `undefined`, a value that is not a function, or a function,
which returns (`none`) or throws. -/
inductive CallbackArgument where
  | undefined : CallbackArgument
  | notFunction : CallbackArgument
  | function (callback : CallbackValue → Option JsError) : CallbackArgument

/-- What is written to the console before the process exits. -/
inductive Report where
  | validationResults : Report
  | stack : Report
  deriving DecidableEq, Repr

/-- What the validation callback leaves behind: the calls made to the callback in order, what
is printed, the exit code of `process.exit`, and the error that escapes, if any. -/
structure InitOutcome where
  calls : List CallbackValue
  report : Option Report
  exit : Option Nat
  thrown : Option JsError
  deriving DecidableEq, Repr

/-- The environment of `index.js`: `getSpec()` (the error it throws, if any), `spec.validate` (the
error it throws, or the pair it hands to its callback) and whether
`process.env.RUNNING_SWAGGER_TOOLS_TESTS === 'true'`. -/
structure InitEnv where
  getSpec : Option JsError
  validate : Document → Except JsError (Option JsError × Option ValidationResults)
  runningTests : Bool

/-- The sum `results.errors.length + _.reduce(results.apiDeclarations || [], ...)`. -/
def totalErrors (results : ValidationResults) : Nat :=
  results.errors.length +
    (results.apiDeclarations.getD []).foldl (fun count apiDeclaration =>
      count + (match apiDeclaration with
        | some ad => ad.errors.length
        | none => 0)) 0

/-- The variable `err` after the first `if` of the validation callback. -/
def validationError (err : Option JsError) (results : Option ValidationResults) :
    Option JsError :=
  match results with
  | none => err
  | some r =>
    if totalErrors r > 0 then
      some { name := "Error"
             message := "Swagger document(s) failed validation so the server cannot start"
             failedValidation := true
             results := some r }
    else err

/-- The `catch` block of the validation callback, entered with the error caught and the calls made
so far. -/
def onCaught (runningTests : Bool) (callback : CallbackValue → Option JsError)
    (calls : List CallbackValue) (err : JsError) : InitOutcome :=
  if runningTests then
    { calls := calls ++ [.error err], report := none, exit := none,
      thrown := callback (.error err) }
  else
    { calls := calls
      report := some (if err.failedValidation = true then .validationResults else .stack)
      exit := some 1
      thrown := none }

/-- The function pushed onto `args`: the callback handed to `spec.validate`. -/
def onValidated (runningTests : Bool) (rlOrSO : Document)
    (callback : CallbackValue → Option JsError) (err0 : Option JsError)
    (results : Option ValidationResults) : InitOutcome :=
  match validationError err0 results with
  | some err => onCaught runningTests callback [] err
  | none =>
    match callback (.middleware rlOrSO) with
    | none => { calls := [.middleware rlOrSO], report := none, exit := none, thrown := none }
    | some err => onCaught runningTests callback [.middleware rlOrSO] err

/-- The function `initializeMiddleware(rlOrSO, resources, callback)`, whose callback is
`arguments[1]`: the error it throws, or what the validation callback does. -/
def initializeMiddleware (env : InitEnv) (rlOrSO : DocArg) (arg1 : CallbackArgument) :
    Except JsError InitOutcome :=
  match rlOrSO with
  | .undefined => .error (newError "rlOrSO is required")
  | .notPlainObject => .error (newTypeError "rlOrSO must be an object")
  | .doc d =>
    match env.getSpec with
    | some e => .error e
    | none =>
      match arg1 with
      | .undefined => .error (newError "callback is required")
      | .notFunction => .error (newTypeError "callback must be a function")
      | .function callback =>
        match env.validate d with
        | .error e => .error e
        | .ok (err, results) => .ok (onValidated env.runningTests d callback err results)

/-- The total as the validation outcome is worded: the errors of the document plus the errors of
every API declaration that is present. -/
def presentErrorCount (results : ValidationResults) : Nat :=
  results.errors.length +
    (((results.apiDeclarations.getD []).filterMap id).map (fun ad => ad.errors.length)).sum

/-- The error the validation callback makes for failed results. -/
def validationFailure (results : ValidationResults) : JsError :=
  { name := "Error"
    message := "Swagger document(s) failed validation so the server cannot start"
    failedValidation := true
    results := some results }

/-! ## A reference instance of the library

The packages as they behave on the inputs the cache construction produces: base paths and
request URLs that begin with `/`, and express-style paths made of literal characters and `:name`
parameters. It is used to evaluate the definitions on concrete documents; the general theorems
quantify over every `Lib`. -/

namespace Reference

/-- The pathname parseurl reports for a URL without whitespace (which it would escape): the URL
up to the query string or fragment. -/
def pathname (url : String) : Option String :=
  let p := url.data.takeWhile (fun c => c != '?' && c != '#')
  if p.isEmpty then none else some (String.mk p)

/-- The characters regex-escape puts a backslash before. -/
def escaped : List Char :=
  ['-', '[', ']', '/', '{', '}', '(', ')', '*', '+', '?', '.', '\\', '^', '$', '|']

/-- The function regex-escape exports. -/
def regexEscape (str : String) : String :=
  String.mk (str.data.flatMap (fun c => if escaped.contains c then ['\\', c] else [c]))

/-- A token of a path: a literal character or a named parameter. -/
inductive Token where
  | lit (c : Char) : Token
  | param (name : String) : Token
  deriving DecidableEq, Repr

/-- The characters of a parameter name. -/
def isNameChar (c : Char) : Bool := c.isAlphanum || c == '_'

/-- The lexer of path-to-regexp on an escaped path; `fuel` bounds the number of tokens. -/
def tokens : Nat → List Char → Except String (List Token)
  | 0, _ => .ok []
  | _ + 1, [] => .ok []
  | fuel + 1, '\\' :: c :: rest => (tokens fuel rest).map (fun ts => Token.lit c :: ts)
  | fuel + 1, ':' :: rest =>
    let name := rest.takeWhile isNameChar
    if name.isEmpty then .error "Missing parameter name"
    else (tokens fuel (rest.dropWhile isNameChar)).map (fun ts => Token.param (String.mk name) :: ts)
  | fuel + 1, c :: rest => (tokens fuel rest).map (fun ts => Token.lit c :: ts)

/-- The delimiters `/#?`. -/
def isDelimiter (c : Char) : Bool := c == '/' || c == '#' || c == '?'

/-- A lazy capture group `([^\/#\?]+?)` followed by the continuation `k`. -/
def matchParam (k : List Char → Option (Nat × List String)) :
    List Char → List Char → Option (Nat × List String)
  | _, [] => none
  | acc, c :: cs =>
    if isDelimiter c then none
    else
      match k cs with
      | some (n, caps) => some (n, String.mk (acc ++ [c]) :: caps)
      | none => matchParam k (acc ++ [c]) cs

/-- The tail of the expression: `[\/#\?]?$` when `end` is true, otherwise an optional final
delimiter and a lookahead for a delimiter or the end. The number returned is the length of the
input left unmatched. -/
def matchEnd (endOpt endDelimited : Bool) (input : List Char) : Option (Nat × List String) :=
  match input with
  | [] => some (0, [])
  | [c] => if isDelimiter c then some (0, []) else if endDelimited && !endOpt then some (1, []) else none
  | c :: rest =>
    if endOpt then none
    else if endDelimited || isDelimiter c then some ((c :: rest).length, [])
    else none

/-- Matching of a token list from the start of the input, case-insensitively. -/
def matchTokens (endOpt endDelimited : Bool) :
    List Token → List Char → Option (Nat × List String)
  | [], input => matchEnd endOpt endDelimited input
  | Token.lit c :: ts, input =>
    match input with
    | [] => none
    | x :: xs => if x.toLower == c.toLower then matchTokens endOpt endDelimited ts xs else none
  | Token.param _ :: ts, input => matchParam (matchTokens endOpt endDelimited ts) [] input

/-- Whether the last token is a delimiter character (or there is no token). -/
def endDelimited (ts : List Token) : Bool :=
  match ts.getLast? with
  | none => true
  | some (Token.lit c) => isDelimiter c
  | some (Token.param _) => false

/-- The source text of the expression built for a token list. -/
def sourceOf (endOpt : Bool) (ts : List Token) : String :=
  let route := ts.foldl (fun acc t =>
    match t with
    | Token.lit c => acc ++ (if (escaped ++ ['=', '!', ':']).contains c then ['\\', c] else [c])
    | Token.param _ => acc ++ "([^\\/#\\?]+?)".data) []
  let tail :=
    if endOpt then "[\\/#\\?]?$"
    else if endDelimited ts then "(?:[\\/#\\?](?=[]|$))?"
    else "(?:[\\/#\\?](?=[]|$))?(?=[\\/#\\?]|[]|$)"
  "/^" ++ String.mk route ++ tail ++ "/i"

/-- The function pathToRegexp with the option `end`. -/
def pathToRegexp (str : String) (endOpt : Bool) : Except String (RegExp × List Key) :=
  match tokens str.length str.data with
  | .error e => .error e
  | .ok ts =>
    let keys := ts.filterMap (fun t =>
      match t with
      | Token.lit _ => none
      | Token.param name => some { name := name : Key })
    let exec := fun (input : String) =>
      match matchTokens endOpt (endDelimited ts) ts input.data with
      | none => none
      | some (n, caps) => some (String.mk (input.data.take (input.data.length - n)) :: caps)
    .ok ({ source := sourceOf endOpt ts, exec := exec }, keys)

/-- The type of a parameter: its `type`, else that of its schema, else `object`. -/
def getParameterType (parameter : Parameter) : String :=
  match parameter.type with
  | some t => t
  | none =>
    match parameter.schema with
    | some sch => sch.type.getD "object"
    | none => "object"

/-- The Swagger 2.0 primitive type names. -/
def primitives : List String := ["string", "number", "boolean", "integer", "array", "file"]

/-- The reference library: parsing a request finds an empty query, body and file set. -/
def lib : Lib where
  pathname := pathname
  regexEscape := regexEscape
  pathToRegexp := pathToRegexp
  resolve := fun d => some d
  getParameterType := getParameterType
  isModelType := fun t => !(primitives.contains t)
  parseQueryString := fun _ => some (JsValue.obj [])
  realTextBodyParser := fun _ => .ok (some (JsValue.obj []))
  urlEncodedBodyParser := fun _ => .ok (some (JsValue.obj []))
  jsonBodyParser := fun req => .ok req.body
  multerFields := fun _ req => .ok (req.body, some (JsValue.obj []))
  multerArray := fun _ => .ok (some (JsValue.obj []), some (JsValue.arr []))
  getParameterValue := fun _ _ _ _ => none
  convertValue := fun v _ _ _ => v

/-- The reference library with a JSON body parser that rejects every body. -/
def failingLib : Lib := { lib with jsonBodyParser := fun _ => .error "entity.parse.failed" }

end Reference

/-! ## Sample documents -/

namespace Sample

/-- The path parameter `id`. -/
def idParam : Parameter :=
  { name := "id", in_ := "path", type := some "integer", format := none,
    collectionFormat := none, schema := none }

/-- The query parameter `limit` as an operation declares it. -/
def limitOfOperation : Parameter :=
  { name := "limit", in_ := "query", type := some "integer", format := some "int32",
    collectionFormat := none, schema := none }

/-- The query parameter `limit` as a path item declares it. -/
def limitOfPath : Parameter :=
  { name := "limit", in_ := "query", type := some "string", format := none,
    collectionFormat := none, schema := none }

/-- A path item with no property. -/
def emptyItem : PathItem :=
  { parameters := none, get := none, put := none, post := none, delete := none, options := none,
    head := none, patch := none, handleSubpaths := none }

/-- An operation with its own `limit` and an empty `security`. -/
def listPets : Operation := { parameters := some [limitOfOperation], security := some [] }

/-- An operation with no property. -/
def getPet : Operation := { parameters := none, security := none }

/-- The path item of `/pets`. -/
def petsItem : PathItem :=
  { emptyItem with parameters := some [limitOfPath, idParam], get := some listPets }

/-- The path item of `/pets/{id}` and of `/pets/mine`. -/
def petItem : PathItem := { emptyItem with parameters := some [idParam], get := some getPet }

/-- A path item that sets `x-swagger-router-handle-subpaths`. -/
def filesItem : PathItem := { emptyItem with get := some getPet, handleSubpaths := some true }

/-- A document with a template declared before a literal path it also matches. -/
def petstore : Document :=
  { basePath := none
    paths := some [("/pets/{id}", petItem), ("/pets/mine", petItem), ("/pets", petsItem),
      ("/files", filesItem)]
    security := some [[("api_key", [])]] }

/-- The same document served under the base path `/v1`. -/
def petstoreV1 : Document := { petstore with basePath := some "/v1" }

/-- The cache built for a document with the reference library. -/
def cacheOf (d : Document) : ApiCache :=
  match processSwaggerDocuments Reference.lib (.doc d) with
  | .ok c => c
  | .error _ => []

/-- A request as the transport hands it over: nothing parsed, no metadata. -/
def request (method url : String) : Request :=
  { method := method, url := url, contentType := none, query := none, body := none,
    files := none, swagger := none }

/-- An entry that matches nothing. -/
def nullEntry : CacheEntry :=
  { apiPath := "", path := emptyItem, keys := [], re := { source := "", exec := fun _ => none },
    operations := [], swaggerObject := { original := petstore, resolved := petstore } }

/-- The entry at a position of a cache. -/
def entryAt (c : ApiCache) (i : Nat) : CacheEntry :=
  match c.get? i with
  | some kv => kv.2
  | none => nullEntry

/-- The result of `createCacheEntry` on an empty cache with the reference library. -/
def created (d : Document) (path : PathItem) (name : String) : ApiCache × String × CacheEntry :=
  match createCacheEntry Reference.lib d [] d path name with
  | .ok r => r
  | .error _ => ([], "", nullEntry)

/-- An operation that declares the pair (`limit`, `query`) twice. -/
def twiceOperation : Operation := { parameters := some [limitOfOperation, limitOfPath], security := none }

/-- A body parameter whose schema is an object. -/
def petBody : Parameter :=
  { name := "pet", in_ := "body", type := none, format := none, collectionFormat := none,
    schema := some { type := some "object", ref := none } }

/-- A body parameter of type `string`. -/
def noteBody : Parameter :=
  { name := "note", in_ := "body", type := some "string", format := none,
    collectionFormat := none, schema := none }

/-- A form parameter of type `file`. -/
def photoFile : Parameter :=
  { name := "photo", in_ := "formData", type := some "file", format := none,
    collectionFormat := none, schema := none }

/-- A header parameter. -/
def tokenHeader : Parameter :=
  { name := "token", in_ := "header", type := some "string", format := none,
    collectionFormat := none, schema := none }

/-- An operation with a structured body. -/
def createOrder : Operation := { parameters := some [petBody], security := none }

/-- The path item of `/orders`. -/
def ordersItem : PathItem := { emptyItem with post := some createOrder }

/-- A document with one operation that reads a JSON body. -/
def orders : Document :=
  { basePath := none, paths := some [("/orders", ordersItem)], security := none }

/-- A request with a content type. -/
def requestOf (method url contentType : String) : Request :=
  { method := method, url := url, contentType := some contentType, query := none, body := none,
    files := none, swagger := none }

/-- A request whose query, body and files an earlier stage populated. -/
def parsedRequest : Request :=
  { method := "POST", url := "/orders", contentType := some "application/json",
    query := some (JsValue.obj []), body := some (JsValue.obj []),
    files := some (JsValue.obj []), swagger := none }

/-- A document with a template and a literal path that have the same express-style path. -/
def colliding : Document :=
  { basePath := none, paths := some [("/pets/{id}", petItem), ("/pets/:id", ordersItem)],
    security := none }

/-- A composed parameter as the cache stores it. -/
def composed (p : Parameter) : ComposedParameter := { path := [], schema := p }

/-- A validation result with one error in the document. -/
def failedResults : ValidationResults :=
  { errors := [{ code := "DUPLICATE_API_PATH",
                 message := "API path (or equivalent) already defined: /pets/{petId}",
                 path := ["paths", "/pets/{petId}"] }]
    warnings := []
    apiDeclarations := none }

/-- A validation result with a warning only. -/
def warnedResults : ValidationResults :=
  { errors := []
    warnings := [{ code := "UNUSED_DEFINITION", message := "Definition is not used",
                   path := ["definitions", "Person"] }]
    apiDeclarations := none }

/-- An environment in test mode whose validator reports the given result. -/
def envOf (results : Option ValidationResults) : InitEnv :=
  { getSpec := none, validate := fun _ => .ok (none, results), runningTests := true }

/-- A query parameter named like the path parameter `id`. -/
def idQuery : Parameter :=
  { name := "id", in_ := "query", type := some "string", format := none,
    collectionFormat := none, schema := none }

/-- An operation with two parameters of its own. -/
def updatePet : Operation := { parameters := some [limitOfOperation, petBody], security := none }

/-- An operation whose query parameter shares its name with a path parameter. -/
def findPet : Operation := { parameters := some [idQuery], security := none }

/-- A query parameter named `__proto__`. -/
def protoQuery : Parameter :=
  { name := "__proto__", in_ := "query", type := some "string", format := none,
    collectionFormat := none, schema := none }

/-- An operation with a parameter named `__proto__` after one named `limit`. -/
def searchPets : Operation :=
  { parameters := some [limitOfOperation, protoQuery], security := none }

/-- The metadata of the operation with the parameter named `__proto__`, as attached to a
request. -/
def protoNamed : Metadata :=
  { makeMetadata nullEntry "get" with
    operationParameters :=
      some (composeParameters ["paths", "/pets"] "get" emptyItem searchPets) }

/-- The metadata of an operation whose composed list holds the name `id` twice. -/
def sharedName : Metadata :=
  { makeMetadata nullEntry "get" with
    operationParameters :=
      some (composeParameters ["paths", "/pets/{id}"] "get" petItem findPet) }

end Sample

/-! ## Lemmas on composition and parser selection -/

theorem split_at_separator (c : Char) :
    ∀ (l1 l2 r1 r2 : List Char), l1 ++ c :: r1 = l2 ++ c :: r2 → c ∉ r1 → c ∉ r2 →
      l1 = l2 ∧ r1 = r2 := by
  intro l1
  induction l1 with
  | nil =>
    intro l2 r1 r2 h h1 _
    cases l2 with
    | nil => simpa using h
    | cons x l2 =>
      simp only [List.nil_append, List.cons_append, List.cons.injEq] at h
      exact absurd (h.2 ▸ (by simp : c ∈ l2 ++ c :: r2)) h1
  | cons x l1 ih =>
    intro l2 r1 r2 h h1 h2
    cases l2 with
    | nil =>
      simp only [List.nil_append, List.cons_append, List.cons.injEq] at h
      exact absurd (h.2 ▸ (by simp : c ∈ l1 ++ c :: r1)) h2
    | cons y l2 =>
      simp only [List.cons_append, List.cons.injEq] at h
      obtain ⟨hl, hr⟩ := ih l2 r1 r2 h.2 h1 h2
      exact ⟨by rw [h.1, hl], hr⟩

theorem seenKey_data (p : Parameter) : (seenKey p).data = p.name.data ++ ':' :: p.in_.data := by
  simp [seenKey, String.data_append]

theorem seenKey_inj (p q : Parameter) (hp : ':' ∉ p.in_.data) (hq : ':' ∉ q.in_.data)
    (h : seenKey p = seenKey q) : p.name = q.name ∧ p.in_ = q.in_ := by
  have hd : (seenKey p).data = (seenKey q).data := by rw [h]
  rw [seenKey_data, seenKey_data] at hd
  obtain ⟨h1, h2⟩ := split_at_separator ':' _ _ _ _ hd hp hq
  exact ⟨String.ext h1, String.ext h2⟩

theorem enumFrom_map_snd {α β : Type} (f : Nat × α → β) (g : α → β) (hfg : ∀ ip, f ip = g ip.2)
    (l : List α) (n : Nat) : (l.enumFrom n).map f = l.map g := by
  induction l generalizing n with
  | nil => rfl
  | cons x xs ih => simp [List.enumFrom, hfg, ih]

theorem enumFrom_filter_map_snd {α β : Type} (f : Nat × α → β) (g : α → β)
    (hfg : ∀ ip, f ip = g ip.2) (p : α → Bool) (l : List α) (n : Nat) :
    ((l.enumFrom n).filter (fun ip => p ip.2)).map f = (l.filter p).map g := by
  induction l generalizing n with
  | nil => rfl
  | cons x xs ih =>
    simp only [List.enumFrom, List.filter_cons]
    by_cases hx : p x = true
    · simp [hx, hfg, ih]
    · simp [hx, ih]

theorem operationEntries_schema (apiPath : List String) (method : String) (ps : List Parameter) :
    (operationEntries apiPath method ps).map (fun c => c.schema) = ps := by
  unfold operationEntries
  rw [List.map_map, List.enum]
  exact (enumFrom_map_snd _ id (fun _ => rfl) ps 0).trans (List.map_id ps)

theorem pathEntries_schema (apiPath : List String) (seen : List String) (ps : List Parameter) :
    (pathEntries apiPath seen ps).map (fun c => c.schema) =
      ps.filter (fun q => !(seen.contains (seenKey q))) := by
  unfold pathEntries
  rw [List.map_map, List.enum]
  exact (enumFrom_filter_map_snd _ id (fun _ => rfl)
    (fun q => !(seen.contains (seenKey q))) ps 0).trans (List.map_id _)

theorem composeParameters_schema (apiPath : List String) (method : String) (path : PathItem)
    (operation : Operation) :
    (composeParameters apiPath method path operation).map (fun c => c.schema) =
      operation.parameters.getD [] ++
        (path.parameters.getD []).filter (fun q =>
          !(((operation.parameters.getD []).map seenKey).contains (seenKey q))) := by
  simp only [composeParameters, List.map_append, operationEntries_schema, pathEntries_schema]

/-- C1. The declarations of the composed list are the operation's parameters in declaration
order, followed by the path-level parameters, in declaration order, whose (name, in) pair does
not occur among the operation's parameters. The locations are free of the separator `:` of the
seen-key, as the six locations of the data model are. -/
theorem composeParameters_declarations (apiPath : List String) (method : String)
    (path : PathItem) (operation : Operation)
    (hop : ∀ p ∈ operation.parameters.getD [], ':' ∉ p.in_.data)
    (hpath : ∀ q ∈ path.parameters.getD [], ':' ∉ q.in_.data) :
    (composeParameters apiPath method path operation).map (fun c => c.schema) =
      operation.parameters.getD [] ++
        (path.parameters.getD []).filter (fun q =>
          !((operation.parameters.getD []).any (fun p => p.name == q.name && p.in_ == q.in_))) := by
  rw [composeParameters_schema]
  congr 1
  apply List.filter_congr
  intro q hq
  congr 1
  rw [Bool.eq_iff_iff]
  simp only [List.contains_iff_exists_mem_beq, List.mem_map, List.any_eq_true, Bool.and_eq_true,
    beq_iff_eq]
  constructor
  · rintro ⟨k, ⟨p, hp, rfl⟩, hk⟩
    exact ⟨p, hp, seenKey_inj p q (hop p hp) (hpath q hq) hk.symm⟩
  · rintro ⟨p, hp, hn, hi⟩
    exact ⟨seenKey p, ⟨p, hp, rfl⟩, by simp [seenKey, hn, hi]⟩

/-- C9 (amended). When the operation's own parameter list holds no two parameters with the same
(name, in) pair and the path item's list holds none either, the composed list holds no two entries
with the same (name, in) pair. -/
theorem composeParameters_pairs_nodup (apiPath : List String) (method : String)
    (path : PathItem) (operation : Operation)
    (hop : ((operation.parameters.getD []).map (fun p => (p.name, p.in_))).Nodup)
    (hpath : ((path.parameters.getD []).map (fun p => (p.name, p.in_))).Nodup) :
    ((composeParameters apiPath method path operation).map
      (fun c => (c.schema.name, c.schema.in_))).Nodup := by
  have hmap : (composeParameters apiPath method path operation).map
      (fun c => (c.schema.name, c.schema.in_)) =
      ((composeParameters apiPath method path operation).map (fun c => c.schema)).map
        (fun p => (p.name, p.in_)) := by
    rw [List.map_map]; rfl
  rw [hmap, composeParameters_schema, List.map_append, List.nodup_append]
  refine ⟨hop, hpath.sublist ((List.filter_sublist _).map _), ?_⟩
  intro pr h1 h2
  obtain ⟨p, hp, rfl⟩ := List.mem_map.1 h1
  obtain ⟨q, hq, hqp⟩ := List.mem_map.1 h2
  have hq2 := (List.mem_filter.1 hq).2
  simp only [Prod.mk.injEq] at hqp
  have hk : seenKey q = seenKey p := by simp [seenKey, hqp.1, hqp.2]
  have hmem : seenKey q ∈ (operation.parameters.getD []).map seenKey :=
    List.mem_map.2 ⟨p, hp, hk.symm⟩
  simp [hmem] at hq2

theorem selectParser_upstream (lib : Lib) (contentType : Option String)
    (parameter : ComposedParameter) (parser : RequestParser)
    (h : selectParser lib contentType parameter = some parser) : isMultiPart parser = false := by
  unfold selectParser at h
  simp only at h
  split_ifs at h <;> simp at h <;> subst h <;> rfl

theorem pushParser_nodup (acc : List RequestParser) (parser : Option RequestParser)
    (hnd : acc.Nodup) : (pushParser acc parser).Nodup := by
  cases parser with
  | none => exact hnd
  | some p =>
    unfold pushParser
    by_cases hc : acc.contains p = true
    · simp only [hc, if_true]; exact hnd
    · simp only [hc]
      have hnm : p ∉ acc := by simpa using hc
      simpa [List.nodup_append, hnd] using hnm

theorem pushParser_upstream (acc : List RequestParser) (parser : Option RequestParser)
    (hup : ∀ p ∈ acc, isMultiPart p = false) (hp : ∀ p, parser = some p → isMultiPart p = false) :
    ∀ p ∈ pushParser acc parser, isMultiPart p = false := by
  cases parser with
  | none => exact hup
  | some q =>
    unfold pushParser
    by_cases hc : acc.contains q = true
    · simp only [hc, if_true]; exact hup
    · simp only [hc]
      intro p hmem
      rcases List.mem_append.1 hmem with h | h
      · exact hup p h
      · simp only [List.mem_singleton] at h
        rw [h]; exact hp q rfl

theorem upstreamParsers_fold (lib : Lib) (contentType : Option String)
    (parameters : List ComposedParameter) (acc : List RequestParser)
    (hnd : acc.Nodup) (hup : ∀ p ∈ acc, isMultiPart p = false) :
    (parameters.foldl (fun requestParsers parameter =>
      pushParser requestParsers (selectParser lib contentType parameter)) acc).Nodup ∧
    ∀ p ∈ (parameters.foldl (fun requestParsers parameter =>
      pushParser requestParsers (selectParser lib contentType parameter)) acc),
      isMultiPart p = false := by
  induction parameters generalizing acc with
  | nil => exact ⟨hnd, hup⟩
  | cons x xs ih =>
    simp only [List.foldl_cons]
    exact ih _ (pushParser_nodup acc _ hnd)
      (pushParser_upstream acc _ hup (fun p hp => selectParser_upstream lib contentType x p hp))

theorem upstreamParsers_nodup (lib : Lib) (contentType : Option String)
    (parameters : List ComposedParameter) :
    (upstreamParsers lib contentType parameters).Nodup ∧
      ∀ p ∈ upstreamParsers lib contentType parameters, isMultiPart p = false :=
  upstreamParsers_fold lib contentType parameters [] List.nodup_nil (by simp)

theorem countP_eq_zero_of_forall (l : List RequestParser)
    (h : ∀ p ∈ l, isMultiPart p = false) : l.countP isMultiPart = 0 := by
  rw [List.countP_eq_zero]
  intro p hp
  simp [h p hp]

/-- C10. The list of parsers handed to `async.map` holds the query parser at most once, the
structured-body parser at most once, the raw-text body parser at most once and at most one
multipart parser, for every composed parameter list and every content type. -/
theorem requestParsers_duplicate_free (lib : Lib) (contentType : Option String)
    (parameters : List ComposedParameter) :
    (requestParsers lib contentType parameters).count RequestParser.queryParser ≤ 1 ∧
    (requestParsers lib contentType parameters).count RequestParser.bodyParser ≤ 1 ∧
    (requestParsers lib contentType parameters).count RequestParser.textBodyParser ≤ 1 ∧
    (requestParsers lib contentType parameters).countP isMultiPart ≤ 1 := by
  obtain ⟨hnd, hup⟩ := upstreamParsers_nodup lib contentType parameters
  have hc := List.nodup_iff_count_le_one.1 hnd
  have hz := countP_eq_zero_of_forall _ hup
  unfold requestParsers
  simp only
  split_ifs
  · refine ⟨?_, ?_, ?_, ?_⟩
    · simpa [List.count_append] using hc _
    · simpa [List.count_append] using hc _
    · simpa [List.count_append] using hc _
    · simp [List.countP_append, hz, isMultiPart]
  · refine ⟨?_, ?_, ?_, ?_⟩
    · simpa [List.count_append] using hc _
    · simpa [List.count_append] using hc _
    · simpa [List.count_append] using hc _
    · simp [List.countP_append, hz, isMultiPart]
  · exact ⟨hc _, hc _, hc _, by simp [hz]⟩

/-! ## Lemmas on the cache construction -/

theorem replaceBraces_no_open (s : List Char) : '{' ∉ replaceBraces s := by
  unfold replaceBraces
  intro h
  obtain ⟨h1, _⟩ := List.mem_filter.1 h
  obtain ⟨c, _, hc⟩ := List.mem_map.1 h1
  by_cases hb : (c == '{') = true
  · simp [hb] at hc
  · simp only [hb] at hc
    simp at hc
    simp [hc] at hb

theorem replaceBraces_no_close (s : List Char) : '}' ∉ replaceBraces s := by
  unfold replaceBraces
  intro h
  simpa using (List.mem_filter.1 h).2

theorem expressStylePath_no_open (lib : Lib) (basePath : Option String) (apiPath : String) :
    (expressStylePath lib basePath apiPath).data.contains '{' = false := by
  have h := replaceBraces_no_open
  unfold expressStylePath
  simp only
  rw [Bool.eq_false_iff]
  intro hc
  exact h _ (by simpa using hc)

theorem objGet_objSet {α : Type} (o : List (String × α)) (k k2 : String) (v : α) :
    objGet (objSet o k v) k2 = if k2 = k then some v else objGet o k2 := by
  induction o with
  | nil =>
    by_cases h : k2 = k
    · simp [objSet, objGet, List.lookup, h]
    · have hb : (k2 == k) = false := by simpa using h
      simp [objSet, objGet, List.lookup, h, hb]
  | cons kv rest ih =>
    obtain ⟨k0, v0⟩ := kv
    unfold objGet at ih ⊢
    by_cases h0 : k0 = k
    · subst h0
      by_cases h : k2 = k0
      · simp [objSet, List.lookup, h]
      · have hb : (k2 == k0) = false := by simpa using h
        simp [objSet, List.lookup, h, hb]
    · by_cases h : k2 = k
      · subst h
        have h0b : (k2 == k0) = false := by simpa using fun h => h0 h.symm
        simp [objSet, List.lookup, h0, h0b, ih]
      · by_cases h2 : k2 = k0
        · simp [objSet, List.lookup, h0, h2]
        · have h2b : (k2 == k0) = false := by simpa using h2
          simp [objSet, List.lookup, h0, h2b, ih, h]

theorem createCacheEntry_ok (lib : Lib) (rlOrSO : Document) (apiCache : ApiCache)
    (adOrSO : Document) (apiOrPath : PathItem) (indexOrName : String)
    (c : ApiCache) (k : String) (e : CacheEntry)
    (h : createCacheEntry lib rlOrSO apiCache adOrSO apiOrPath indexOrName = .ok (c, k, e)) :
    ∃ endOpt, handleSubPaths rlOrSO indexOrName = .ok endOpt ∧
      lib.pathToRegexp (lib.regexEscape (expressStylePath lib adOrSO.basePath indexOrName)) endOpt
        = .ok (e.re, e.keys) ∧
      k = expressStylePath lib adOrSO.basePath indexOrName ∧
      c = objSet apiCache k e ∧
      e.apiPath = indexOrName ∧ e.path = apiOrPath ∧ e.operations = [] ∧
      e.swaggerObject = { original := rlOrSO, resolved := adOrSO } := by
  unfold createCacheEntry at h
  simp only at h
  cases hs : handleSubPaths rlOrSO indexOrName with
  | error err => rw [hs] at h; cases h
  | ok endOpt =>
    rw [hs] at h
    simp only at h
    cases hp : lib.pathToRegexp
        (lib.regexEscape (expressStylePath lib adOrSO.basePath indexOrName)) endOpt with
    | error err => rw [hp] at h; cases h
    | ok rk =>
      obtain ⟨re, keys⟩ := rk
      rw [hp] at h
      simp only [expressStylePath_no_open, Bool.not_false, if_true, Except.ok.injEq,
        Prod.mk.injEq] at h
      obtain ⟨hc, hk, he⟩ := h
      subst he
      subst hk
      exact ⟨endOpt, rfl, hp, rfl, hc.symm, rfl, rfl, rfl, rfl⟩

theorem buildCache_preserves (lib : Lib) (rlOrSO resolved : Document)
    (paths : List (String × PathItem)) (c0 c : ApiCache) (key : String)
    (h : buildCache lib rlOrSO resolved paths c0 = .ok c)
    (hkey : ∀ q ∈ paths, expressStylePath lib resolved.basePath q.1 ≠ key) :
    objGet c key = objGet c0 key := by
  induction paths generalizing c0 with
  | nil =>
    simp only [buildCache, Except.ok.injEq] at h
    rw [h]
  | cons q rest ih =>
    obtain ⟨pathName, path⟩ := q
    simp only [buildCache] at h
    cases hc : createCacheEntry lib rlOrSO c0 resolved path pathName with
    | error err => rw [hc] at h; cases h
    | ok r =>
      obtain ⟨c1, k, e⟩ := r
      rw [hc] at h
      simp only at h
      obtain ⟨_, _, _, hk, hc1, _⟩ := createCacheEntry_ok _ _ _ _ _ _ _ _ _ hc
      rw [ih _ h (fun q hq => hkey q (List.mem_cons_of_mem _ hq))]
      have hne : key ≠ k := by
        rw [hk]; exact fun hh => hkey (pathName, path) (List.mem_cons_self _ _) hh.symm
      rw [objGet_objSet, if_neg hne, hc1, objGet_objSet, if_neg hne]

theorem buildCache_entry (lib : Lib) (rlOrSO resolved : Document)
    (paths : List (String × PathItem)) (c0 c : ApiCache) (P : String) (item : PathItem)
    (h : buildCache lib rlOrSO resolved paths c0 = .ok c)
    (hP : (P, item) ∈ paths)
    (huniq : ∀ q ∈ paths, expressStylePath lib resolved.basePath q.1 =
      expressStylePath lib resolved.basePath P → q = (P, item)) :
    ∃ e, objGet c (expressStylePath lib resolved.basePath P) = some e ∧
      e.apiPath = P ∧ e.path = item ∧ e.operations = buildOperations item P ∧
      e.swaggerObject = { original := rlOrSO, resolved := resolved } := by
  induction paths generalizing c0 with
  | nil => cases hP
  | cons q rest ih =>
    obtain ⟨pathName, path⟩ := q
    simp only [buildCache] at h
    cases hc : createCacheEntry lib rlOrSO c0 resolved path pathName with
    | error err => rw [hc] at h; cases h
    | ok r =>
      obtain ⟨c1, k, e⟩ := r
      rw [hc] at h
      simp only at h
      obtain ⟨_, _, _, hk, hc1, hap, hpa, _, hso⟩ := createCacheEntry_ok _ _ _ _ _ _ _ _ _ hc
      by_cases hin : (P, item) ∈ rest
      · exact ih _ h hin (fun q hq => huniq q (List.mem_cons_of_mem _ hq))
      · have hhead : (pathName, path) = (P, item) := by
          rcases List.mem_cons.1 hP with h1 | h1
          · exact h1.symm
          · exact absurd h1 hin
        simp only [Prod.mk.injEq] at hhead
        obtain ⟨hn, hi⟩ := hhead
        subst hn; subst hi
        have hrest : ∀ q ∈ rest, expressStylePath lib resolved.basePath q.1 ≠
            expressStylePath lib resolved.basePath pathName := by
          intro q hq heq
          have := huniq q (List.mem_cons_of_mem _ hq) heq
          exact hin (this ▸ hq)
        rw [buildCache_preserves lib rlOrSO resolved rest _ c _ h hrest]
        rw [objGet_objSet, if_pos hk.symm]
        exact ⟨_, rfl, hap, hpa, rfl, hso⟩

/-! ## Lemmas on the middleware -/

theorem runParser_swagger (lib : Lib) (parser : RequestParser) (req : Request) :
    (runParser lib parser req).req.swagger = req.swagger := by
  cases parser <;> simp only [runParser] <;> split_ifs <;> try rfl
  · cases lib.realTextBodyParser req <;> rfl
  · cases lib.urlEncodedBodyParser req with
    | error err => rfl
    | ok body =>
      simp only
      cases lib.jsonBodyParser { req with body := body } <;> rfl
  · cases lib.multerFields _ req <;> rfl
  · cases lib.multerArray req <;> rfl

theorem runParsers_swagger (lib : Lib) (parsers : List RequestParser) (req : Request) :
    (runParsers lib parsers req).req.swagger = req.swagger := by
  induction parsers generalizing req with
  | nil => rfl
  | cons p ps ih =>
    simp only [runParsers]
    have h := runParser_swagger lib p req
    cases hr : runParser lib p req with
    | mk r n =>
      rw [hr] at h
      cases n with
      | none => simp only; rw [ih]; exact h
      | some err => exact h

theorem processOperationParameters_swagger (lib : Lib) (md : Metadata) (pathKeys : List Key)
    (pathMatch : Option (List String)) (req : Request) (h : req.swagger = some md) :
    ∃ params proto, (processOperationParameters lib md pathKeys pathMatch req).req.swagger =
      some { md with params := params, paramsPrototype := proto } := by
  obtain ⟨apiPath, path, params0, so, op, opPath, opParams, sec, proto0⟩ := md
  unfold processOperationParameters
  cases opParams with
  | none => exact ⟨params0, proto0, h⟩
  | some parameters =>
    simp only
    have hs := runParsers_swagger lib (requestParsers lib req.contentType parameters) req
    cases hr : runParsers lib (requestParsers lib req.contentType parameters) req with
    | mk r n =>
      rw [hr] at hs
      cases n with
      | none =>
        exact ⟨(parameters.foldl (extractParameter lib pathKeys pathMatch r)
          (params0, proto0)).1, (parameters.foldl (extractParameter lib pathKeys pathMatch r)
          (params0, proto0)).2, rfl⟩
      | some err => exact ⟨params0, proto0, hs.trans h⟩

theorem swaggerMetadata_selected (lib : Lib) (apiCache : ApiCache) (req : Request)
    (e : CacheEntry) (m : Option (List String))
    (h : selectEntry apiCache (jsString (lib.pathname req.url)) = some (e, m)) :
    ∃ params proto, (swaggerMetadata lib apiCache req).req.swagger =
      some { makeMetadata e (toLowerCase req.method) with
        params := params, paramsPrototype := proto } ∧
      (objGet e.operations (toLowerCase req.method) = none →
        params = [] ∧ (swaggerMetadata lib apiCache req).next = none) := by
  unfold swaggerMetadata
  simp only [h]
  cases ho : objGet e.operations (toLowerCase req.method) with
  | none =>
    have hm : (makeMetadata e (toLowerCase req.method)).operation = none := by
      simp [makeMetadata, ho]
    refine ⟨[], none, ?_, fun _ => ⟨rfl, ?_⟩⟩
    · simp [hm, makeMetadata, ho]
    · simp [hm]
  | some oe =>
    have hm : (makeMetadata e (toLowerCase req.method)).operation.isSome = true := by
      simp [makeMetadata, ho]
    simp only [hm, if_true]
    obtain ⟨params, proto, hp⟩ := processOperationParameters_swagger lib
      (makeMetadata e (toLowerCase req.method)) e.keys m
      { req with swagger := some (makeMetadata e (toLowerCase req.method)) } rfl
    exact ⟨params, proto, hp, fun hn => by cases hn⟩

theorem swaggerMetadata_unselected (lib : Lib) (apiCache : ApiCache) (req : Request)
    (h : selectEntry apiCache (jsString (lib.pathname req.url)) = none) :
    swaggerMetadata lib apiCache req = { req := req, next := none } := by
  unfold swaggerMetadata
  simp only [h]

/-- C2. On a request that carries no metadata yet, `req.swagger` is attached exactly when a cache
entry is selected for the request path. The metadata then holds the entry's `apiPath`, `path` and
resolved document, and each of `operation`, `operationPath`, `operationParameters` and `security`
is present exactly when the entry holds an operation for the lower-cased request method; when it
holds none, `params` is empty. -/
theorem swaggerMetadata_presence (lib : Lib) (apiCache : ApiCache) (req : Request)
    (hfresh : req.swagger = none) :
    ((swaggerMetadata lib apiCache req).req.swagger.isSome =
      (selectEntry apiCache (jsString (lib.pathname req.url))).isSome) ∧
    ∀ e m, selectEntry apiCache (jsString (lib.pathname req.url)) = some (e, m) →
      ∃ md, (swaggerMetadata lib apiCache req).req.swagger = some md ∧
        md.apiPath = e.apiPath ∧ md.path = e.path ∧
        md.swaggerObject = e.swaggerObject.resolved ∧
        md.operation.isSome = (objGet e.operations (toLowerCase req.method)).isSome ∧
        md.operationPath.isSome = (objGet e.operations (toLowerCase req.method)).isSome ∧
        md.operationParameters.isSome = (objGet e.operations (toLowerCase req.method)).isSome ∧
        md.security.isSome = (objGet e.operations (toLowerCase req.method)).isSome ∧
        (objGet e.operations (toLowerCase req.method) = none → md.params = []) := by
  constructor
  · cases hs : selectEntry apiCache (jsString (lib.pathname req.url)) with
    | none => rw [swaggerMetadata_unselected lib apiCache req hs]; simp [hfresh]
    | some em =>
      obtain ⟨e, m⟩ := em
      obtain ⟨params, proto, hp, _⟩ := swaggerMetadata_selected lib apiCache req e m hs
      rw [hp]; rfl
  · intro e m hs
    obtain ⟨params, proto, hp, hn⟩ := swaggerMetadata_selected lib apiCache req e m hs
    refine ⟨_, hp, ?_⟩
    cases ho : objGet e.operations (toLowerCase req.method) with
    | none => simp [makeMetadata, ho, (hn ho).1]
    | some oe => simp [makeMetadata, ho]

/-- C4. When the cache holds an entry under the request path itself, that entry is the one
selected (no matcher is consulted, whatever entries come before it) and the metadata attached is
built from it. -/
theorem exact_key_precedence (lib : Lib) (apiCache : ApiCache) (req : Request) (e : CacheEntry)
    (hkey : objGet apiCache (jsString (lib.pathname req.url)) = some e) :
    selectEntry apiCache (jsString (lib.pathname req.url)) = some (e, none) ∧
    ∃ md, (swaggerMetadata lib apiCache req).req.swagger = some md ∧
      md.apiPath = e.apiPath ∧ md.path = e.path := by
  have hs : selectEntry apiCache (jsString (lib.pathname req.url)) = some (e, none) := by
    simp [selectEntry, hkey]
  refine ⟨hs, ?_⟩
  obtain ⟨params, proto, hp, _⟩ := swaggerMetadata_selected lib apiCache req e none hs
  refine ⟨_, hp, ?_⟩
  cases ho : objGet e.operations (toLowerCase req.method) <;> simp [makeMetadata, ho]

theorem find_first_accepting (path : String) (l1 l2 : ApiCache) (k : String) (e : CacheEntry)
    (hrej : ∀ kv ∈ l1, kv.2.re.exec path = none) (hacc : (e.re.exec path).isSome = true) :
    (l1 ++ (k, e) :: l2).find? (fun kv => (kv.2.re.exec path).isSome) = some (k, e) := by
  induction l1 with
  | nil => simp [List.find?, hacc]
  | cons x xs ih =>
    have hx : (x.2.re.exec path).isSome = false := by
      rw [hrej x (List.mem_cons_self _ _)]; rfl
    simp only [List.cons_append, List.find?, hx]
    exact ih (fun kv hkv => hrej kv (List.mem_cons_of_mem _ hkv))

theorem find_none_accepting (path : String) (l : ApiCache)
    (hrej : ∀ kv ∈ l, kv.2.re.exec path = none) :
    l.find? (fun kv => (kv.2.re.exec path).isSome) = none := by
  rw [List.find?_eq_none]
  intro kv hkv
  simp [hrej kv hkv]

/-- C5. When the request path is not a cache key, the entry selected is the first one, in the
order of the cache, whose matcher accepts the path, together with its match; when no matcher
accepts the path, no entry is selected and the middleware calls `next()` with no error, leaving
the request as it was. -/
theorem declaration_order_scan (lib : Lib) (apiCache : ApiCache) (req : Request)
    (hkey : objGet apiCache (jsString (lib.pathname req.url)) = none) :
    (∀ l1 k e l2, apiCache = l1 ++ (k, e) :: l2 →
      (∀ kv ∈ l1, kv.2.re.exec (jsString (lib.pathname req.url)) = none) →
      (e.re.exec (jsString (lib.pathname req.url))).isSome = true →
      selectEntry apiCache (jsString (lib.pathname req.url)) =
        some (e, e.re.exec (jsString (lib.pathname req.url)))) ∧
    ((∀ kv ∈ apiCache, kv.2.re.exec (jsString (lib.pathname req.url)) = none) →
      selectEntry apiCache (jsString (lib.pathname req.url)) = none ∧
      swaggerMetadata lib apiCache req = { req := req, next := none }) := by
  constructor
  · intro l1 k e l2 hsplit hrej hacc
    unfold selectEntry
    rw [hkey]
    simp only
    rw [hsplit, find_first_accepting _ l1 l2 k e hrej hacc]
  · intro hrej
    have hs : selectEntry apiCache (jsString (lib.pathname req.url)) = none := by
      unfold selectEntry
      rw [hkey]
      simp only
      rw [find_none_accepting _ apiCache hrej]
    exact ⟨hs, swaggerMetadata_unselected lib apiCache req hs⟩

/-- C8. When the selected entry holds an operation for the request method, `metadata.security` is
the operation's own `security` when it declares one (an empty list included), otherwise the
resolved document's `security` when it declares one, otherwise the empty list. -/
theorem security_fallback (lib : Lib) (apiCache : ApiCache) (req : Request) (e : CacheEntry)
    (m : Option (List String)) (oe : OperationEntry)
    (hsel : selectEntry apiCache (jsString (lib.pathname req.url)) = some (e, m))
    (hop : objGet e.operations (toLowerCase req.method) = some oe) :
    ∃ md, (swaggerMetadata lib apiCache req).req.swagger = some md ∧
      md.operation = some oe.operation ∧
      (∀ s, oe.operation.security = some s → md.security = some s) ∧
      (oe.operation.security = none → ∀ s, e.swaggerObject.resolved.security = some s →
        md.security = some s) ∧
      (oe.operation.security = none → e.swaggerObject.resolved.security = none →
        md.security = some []) := by
  obtain ⟨params, proto, hp, _⟩ := swaggerMetadata_selected lib apiCache req e m hsel
  refine ⟨_, hp, ?_, ?_, ?_, ?_⟩
  · simp [makeMetadata, hop]
  · intro s hs; simp [makeMetadata, hop, securityOf, hs]
  · intro hn s hs; simp [makeMetadata, hop, securityOf, hn, hs]
  · intro hn hd; simp [makeMetadata, hop, securityOf, hn, hd]

/-! ## The cache and the claims on concrete documents -/

theorem replaceBraces_id (s : List Char) (h1 : '{' ∉ s) (h2 : '}' ∉ s) : replaceBraces s = s := by
  unfold replaceBraces
  have hm : s.map (fun c => if c == '{' then ':' else c) = s := by
    conv_rhs => rw [← List.map_id s]
    apply List.map_congr_left
    intro c hc
    have : c ≠ '{' := fun h => h1 (h ▸ hc)
    simp [this]
  rw [hm, List.filter_eq_self]
  intro c hc
  have : c ≠ '}' := fun h => h2 (h ▸ hc)
  simpa using this

theorem expressStylePath_root (lib : Lib) (P : String) (hroot : lib.pathname "/" = some "/")
    (hslash : startsWithChar P.data '/' = true) (h1 : '{' ∉ P.data) (h2 : '}' ∉ P.data) :
    expressStylePath lib none P = P := by
  obtain ⟨cs⟩ := P
  cases cs with
  | nil => simp [startsWithChar] at hslash
  | cons c rest =>
    simp only [startsWithChar, beq_iff_eq] at hslash
    subst hslash
    simp only [expressStylePath, hroot]
    have h1b : '{' ∉ '/' :: rest := h1
    have h2b : '}' ∉ '/' :: rest := h2
    simp [startsWithChar, endsWithChar, substring1, replaceBraces_id _ h1b h2b]

/-- Counterexample to C3: under the base path `/v1` the declared literal path `/pets` is stored
under `/v1/pets`, and a request whose path is exactly `/pets` selects no entry and gets no
metadata. -/
theorem literal_path_unmatched_under_base_path :
    ("/pets", Sample.petsItem) ∈ Sample.petstoreV1.paths.getD [] ∧
    (processSwaggerDocuments Reference.lib (.doc Sample.petstoreV1)).toOption.map
      (fun apiCache => (selectEntry apiCache "/pets").isSome) = some false ∧
    (processSwaggerDocuments Reference.lib (.doc Sample.petstoreV1)).toOption.map
      (fun apiCache => (swaggerMetadata Reference.lib apiCache
        (Sample.request "GET" "/pets")).req.swagger.isSome) = some false := by
  decide

/-- Witness of C1: the path-level `limit` is dropped, the path-level `id` is kept. -/
theorem composeParameters_declarations_witness :
    (composeParameters ["paths", "/pets"] "get" Sample.petsItem Sample.listPets).map
      (fun c => c.schema) = [Sample.limitOfOperation, Sample.idParam] :=
  (composeParameters_declarations ["paths", "/pets"] "get" Sample.petsItem Sample.listPets
    (by decide) (by decide)).trans (by decide)

/-- Witness of C2: `DELETE /pets` matches a path that declares no `delete` operation, and metadata
is attached. -/
theorem swaggerMetadata_presence_witness :
    (swaggerMetadata Reference.lib (Sample.cacheOf Sample.petstore)
      (Sample.request "DELETE" "/pets")).req.swagger.isSome = true :=
  ((swaggerMetadata_presence Reference.lib (Sample.cacheOf Sample.petstore)
    (Sample.request "DELETE" "/pets") rfl).1).trans (by decide)

/-- Witness of C4: `/pets/mine` is accepted by the matcher of the template declared first, and the
entry stored under `/pets/mine` is the one selected. -/
theorem exact_key_precedence_witness :
    ((Sample.entryAt (Sample.cacheOf Sample.petstore) 0).re.exec "/pets/mine").isSome = true ∧
    selectEntry (Sample.cacheOf Sample.petstore) "/pets/mine" =
      some (Sample.entryAt (Sample.cacheOf Sample.petstore) 1, none) ∧
    (Sample.entryAt (Sample.cacheOf Sample.petstore) 1).apiPath = "/pets/mine" :=
  ⟨by decide,
    (exact_key_precedence Reference.lib (Sample.cacheOf Sample.petstore)
      (Sample.request "GET" "/pets/mine")
      (Sample.entryAt (Sample.cacheOf Sample.petstore) 1) rfl).1,
    by decide⟩

/-- Witness of C5: `/PETS/MINE` is no cache key; the matchers of the first two entries accept it and
the first one is selected. -/
theorem declaration_order_scan_witness :
    ((Sample.entryAt (Sample.cacheOf Sample.petstore) 1).re.exec "/PETS/MINE").isSome = true ∧
    selectEntry (Sample.cacheOf Sample.petstore) "/PETS/MINE" =
      some (Sample.entryAt (Sample.cacheOf Sample.petstore) 0, some ["/PETS/MINE", "MINE"]) :=
  ⟨by decide,
    (declaration_order_scan Reference.lib (Sample.cacheOf Sample.petstore)
      (Sample.request "GET" "/PETS/MINE") rfl).1 []
      "/pets/:id" (Sample.entryAt (Sample.cacheOf Sample.petstore) 0)
      ((Sample.cacheOf Sample.petstore).drop 1) rfl (by simp) (by decide)⟩

/-- Witness of C8: the empty `security` of the operation is kept although the document declares a
default. -/
theorem security_fallback_witness :
    ∃ md, (swaggerMetadata Reference.lib (Sample.cacheOf Sample.petstore)
      (Sample.request "GET" "/pets")).req.swagger = some md ∧ md.security = some [] :=
  match security_fallback Reference.lib (Sample.cacheOf Sample.petstore)
    (Sample.request "GET" "/pets") (Sample.entryAt (Sample.cacheOf Sample.petstore) 2) none
    { operation := Sample.listPets, operationPath := ["paths", "/pets", "get"],
      operationParameters := composeParameters ["paths", "/pets"] "get" Sample.petsItem
        Sample.listPets } rfl rfl with
  | ⟨md, h1, _, h2, _⟩ => ⟨md, h1, h2 [] rfl⟩

/-- C6 (amended). For a declared path that does not set `x-swagger-router-handle-subpaths` to
true, `createCacheEntry` compiles the matcher with `end: true` (end-anchored, exact match); only a
path that sets it to true gets a matcher compiled with `end: false`, which admits sub-paths. -/
theorem createCacheEntry_end_option (lib : Lib) (rlOrSO : Document) (apiCache : ApiCache)
    (adOrSO : Document) (apiOrPath : PathItem) (indexOrName : String)
    (ps : List (String × PathItem)) (item : PathItem)
    (c : ApiCache) (k : String) (e : CacheEntry)
    (hps : rlOrSO.paths = some ps) (hitem : objGet ps indexOrName = some item)
    (h : createCacheEntry lib rlOrSO apiCache adOrSO apiOrPath indexOrName = .ok (c, k, e)) :
    (item.handleSubpaths ≠ some true →
      lib.pathToRegexp (lib.regexEscape (expressStylePath lib adOrSO.basePath indexOrName)) true
        = .ok (e.re, e.keys)) ∧
    (item.handleSubpaths = some true →
      lib.pathToRegexp (lib.regexEscape (expressStylePath lib adOrSO.basePath indexOrName)) false
        = .ok (e.re, e.keys)) := by
  obtain ⟨endOpt, hs, hre, _⟩ := createCacheEntry_ok _ _ _ _ _ _ _ _ _ h
  simp only [handleSubPaths, hps, hitem, Except.ok.injEq] at hs
  constructor
  · intro hflag
    have : endOpt = true := by rw [← hs]; simpa using hflag
    rw [← this]; exact hre
  · intro hflag
    have : endOpt = false := by rw [← hs]; simp [hflag]
    rw [← this]; exact hre

/-- Witness of C6 (amended): the path that sets the extension is compiled with `end: false`. -/
theorem createCacheEntry_end_option_witness :
    Reference.lib.pathToRegexp (Reference.lib.regexEscape "/files") false =
      .ok ((Sample.created Sample.petstore Sample.filesItem "/files").2.2.re,
        (Sample.created Sample.petstore Sample.filesItem "/files").2.2.keys) :=
  (createCacheEntry_end_option Reference.lib Sample.petstore [] Sample.petstore Sample.filesItem
    "/files" _ Sample.filesItem _ _ _ rfl rfl rfl).2 rfl

/-- Counterexample to C6: a path that does not set the extension is compiled with `end: true`, and
a sub-path of it selects no entry. -/
theorem default_matcher_is_end_anchored :
    Sample.petItem.handleSubpaths = none ∧
    (handleSubPaths Sample.petstore "/pets/{id}").toOption = some true ∧
    (selectEntry (Sample.cacheOf Sample.petstore) "/pets/7").isSome = true ∧
    (selectEntry (Sample.cacheOf Sample.petstore) "/pets/7/photos").isSome = false := by
  decide

/-- C7 (failing input). The entry of the template `/pets/{id}` is stored under the express-style
path `/pets/:id`, which is not the text of its compiled expression. -/
theorem placeholder_path_keyed_by_express_path :
    (createCacheEntry Reference.lib Sample.petstore [] Sample.petstore Sample.petItem
      "/pets/{id}").toOption.map (fun r => (r.2.1, r.2.1 == r.2.2.re.source)) =
      some ("/pets/:id", false) := by
  decide

/-- Witness of C9 (amended). -/
theorem composeParameters_pairs_nodup_witness :
    ((composeParameters ["paths", "/pets"] "get" Sample.petsItem Sample.listPets).map
      (fun c => (c.schema.name, c.schema.in_))).Nodup :=
  composeParameters_pairs_nodup ["paths", "/pets"] "get" Sample.petsItem Sample.listPets
    (by decide) (by decide)

/-- Counterexample to C9: a pair declared twice by the operation occurs twice in the composed
list. -/
theorem duplicate_operation_parameters_kept :
    ¬ ((composeParameters ["paths", "/pets"] "get" Sample.emptyItem Sample.twiceOperation).map
      (fun c => (c.schema.name, c.schema.in_))).Nodup := by
  decide

/-! ## Parser selection and the parser run -/

theorem mem_pushParser_of_mem (acc : List RequestParser) (parser : Option RequestParser)
    (x : RequestParser) (h : x ∈ acc) : x ∈ pushParser acc parser := by
  cases parser with
  | none => exact h
  | some p =>
    simp only [pushParser]
    split_ifs
    · exact h
    · exact List.mem_append_left _ h

theorem mem_pushParser_self (acc : List RequestParser) (p : RequestParser) :
    p ∈ pushParser acc (some p) := by
  simp only [pushParser]
  by_cases hc : acc.contains p = true
  · simp only [hc, if_true]; simpa using hc
  · simp only [hc]; simp

theorem mem_fold_of_mem (lib : Lib) (contentType : Option String)
    (parameters : List ComposedParameter) (acc : List RequestParser) (x : RequestParser)
    (h : x ∈ acc) :
    x ∈ parameters.foldl (fun requestParsers parameter =>
      pushParser requestParsers (selectParser lib contentType parameter)) acc := by
  induction parameters generalizing acc with
  | nil => exact h
  | cons q qs ih => exact ih _ (mem_pushParser_of_mem acc _ x h)

theorem mem_fold_of_selected (lib : Lib) (contentType : Option String)
    (parameters : List ComposedParameter) (acc : List RequestParser)
    (parameter : ComposedParameter) (x : RequestParser) (hmem : parameter ∈ parameters)
    (hsel : selectParser lib contentType parameter = some x) :
    x ∈ parameters.foldl (fun requestParsers parameter =>
      pushParser requestParsers (selectParser lib contentType parameter)) acc := by
  induction parameters generalizing acc with
  | nil => cases hmem
  | cons q qs ih =>
    rcases List.mem_cons.1 hmem with h | h
    · subst h
      simp only [List.foldl_cons, hsel]
      exact mem_fold_of_mem lib contentType qs _ x (mem_pushParser_self acc x)
    · exact ih _ h

theorem mem_requestParsers_of_selected (lib : Lib) (contentType : Option String)
    (parameters : List ComposedParameter) (parameter : ComposedParameter) (x : RequestParser)
    (hmem : parameter ∈ parameters) (hsel : selectParser lib contentType parameter = some x) :
    x ∈ requestParsers lib contentType parameters := by
  have hup : x ∈ upstreamParsers lib contentType parameters :=
    mem_fold_of_selected lib contentType parameters [] parameter x hmem hsel
  unfold requestParsers
  simp only
  split_ifs
  · exact List.mem_append_left _ hup
  · exact List.mem_append_left _ hup
  · exact hup

/-- C11. On a request that is not multipart/form-data, a parameter located in `body` whose type
is not `file` (compared in lower case, as the code does) selects the raw-text body parser exactly
when its type is not structured (no model type, not `array`, not `object`) and the structured
body parser exactly when it is; the parser it selects is in the list of parsers to run. -/
theorem body_parser_choice (lib : Lib) (contentType : Option String)
    (parameter : ComposedParameter)
    (hbody : parameter.schema.in_ = "body")
    (hfile : toLowerCase (lib.getParameterType parameter.schema) ≠ "file")
    (hct : isMultipartFormData contentType = false) :
    (selectParser lib contentType parameter = some RequestParser.textBodyParser ↔
      ¬ (lib.isModelType (lib.getParameterType parameter.schema) = true ∨
        lib.getParameterType parameter.schema = "array" ∨
        lib.getParameterType parameter.schema = "object")) ∧
    (selectParser lib contentType parameter = some RequestParser.bodyParser ↔
      (lib.isModelType (lib.getParameterType parameter.schema) = true ∨
        lib.getParameterType parameter.schema = "array" ∨
        lib.getParameterType parameter.schema = "object")) ∧
    ∀ parameters, parameter ∈ parameters →
      ∃ x, selectParser lib contentType parameter = some x ∧
        x ∈ requestParsers lib contentType parameters := by
  have hsel : selectParser lib contentType parameter =
      if (lib.isModelType (lib.getParameterType parameter.schema) = true ∨
        lib.getParameterType parameter.schema = "array" ∨
        lib.getParameterType parameter.schema = "object")
      then some RequestParser.bodyParser else some RequestParser.textBodyParser := by
    unfold selectParser
    simp [hbody, hfile, hct]
  by_cases hs : (lib.isModelType (lib.getParameterType parameter.schema) = true ∨
        lib.getParameterType parameter.schema = "array" ∨
        lib.getParameterType parameter.schema = "object")
  · rw [if_pos hs] at hsel
    refine ⟨?_, ?_, ?_⟩
    · rw [hsel]; simp [hs]
    · rw [hsel]; simp [hs]
    · intro ps hp
      exact ⟨_, hsel, mem_requestParsers_of_selected lib contentType ps parameter _ hp hsel⟩
  · rw [if_neg hs] at hsel
    refine ⟨?_, ?_, ?_⟩
    · rw [hsel]; simp [hs]
    · rw [hsel]; simp [hs]
    · intro ps hp
      exact ⟨_, hsel, mem_requestParsers_of_selected lib contentType ps parameter _ hp hsel⟩

/-- Witness of C11: an object body selects the structured parser, a string body does not. -/
theorem body_parser_choice_witness :
    selectParser Reference.lib (some "application/json") (Sample.composed Sample.petBody) =
      some RequestParser.bodyParser ∧
    ¬ (selectParser Reference.lib (some "application/json") (Sample.composed Sample.noteBody) =
      some RequestParser.bodyParser) :=
  ⟨(body_parser_choice Reference.lib (some "application/json") (Sample.composed Sample.petBody)
      rfl (by decide) (by decide)).2.1.2 (by decide),
    fun h => absurd ((body_parser_choice Reference.lib (some "application/json")
      (Sample.composed Sample.noteBody) rfl (by decide) (by decide)).2.1.1 h) (by decide)⟩

theorem filter_isMultiPart_upstream (lib : Lib) (contentType : Option String)
    (parameters : List ComposedParameter) :
    (upstreamParsers lib contentType parameters).filter isMultiPart = [] := by
  rw [List.filter_eq_nil_iff]
  intro p hp
  simp [(upstreamParsers_nodup lib contentType parameters).2 p hp]

theorem multiPartFields_eq (lib : Lib) (parameters : List ComposedParameter) :
    multiPartFields lib parameters =
      (parameters.filter (fun p =>
        decide (p.schema.in_ = "body" ∨ p.schema.in_ = "form" ∨ p.schema.in_ = "formData") &&
          decide (toLowerCase (lib.getParameterType p.schema) = "file"))).map
        (fun p => { name := p.schema.name, maxCount := 1 }) := by
  unfold multiPartFields
  induction parameters with
  | nil => rfl
  | cons p ps ih =>
    simp only [List.filterMap_cons, List.filter_cons]
    by_cases h1 : (p.schema.in_ = "body" ∨ p.schema.in_ = "form" ∨ p.schema.in_ = "formData")
    · by_cases h2 : toLowerCase (lib.getParameterType p.schema) = "file"
      · simp [h1, h2, ih]
      · simp [h1, h2, ih]
    · simp [h1, ih]

/-- C12. The multipart parsers in the list of parsers to run: when the list has parameters of type
`file` located in `body`, `form` or `formData`, exactly one, made from the fields of those
parameters' names in list order, each with `maxCount` 1; otherwise, when the content type is
multipart/form-data, exactly one, made by `multer#array`; otherwise none. -/
theorem multipart_selection (lib : Lib) (contentType : Option String)
    (parameters : List ComposedParameter) :
    (requestParsers lib contentType parameters).filter isMultiPart =
      if (parameters.filter (fun p =>
          decide (p.schema.in_ = "body" ∨ p.schema.in_ = "form" ∨ p.schema.in_ = "formData") &&
            decide (toLowerCase (lib.getParameterType p.schema) = "file"))).isEmpty
      then (if isMultipartFormData contentType then [RequestParser.multiPartArray] else [])
      else [RequestParser.multiPartFields
        ((parameters.filter (fun p =>
          decide (p.schema.in_ = "body" ∨ p.schema.in_ = "form" ∨ p.schema.in_ = "formData") &&
            decide (toLowerCase (lib.getParameterType p.schema) = "file"))).map
          (fun p => { name := p.schema.name, maxCount := 1 }))] := by
  have hup := filter_isMultiPart_upstream lib contentType parameters
  have hf := multiPartFields_eq lib parameters
  unfold requestParsers
  simp only
  rw [hf]
  generalize (parameters.filter (fun p =>
        decide (p.schema.in_ = "body" ∨ p.schema.in_ = "form" ∨ p.schema.in_ = "formData") &&
          decide (toLowerCase (lib.getParameterType p.schema) = "file"))) = files
  cases files with
  | nil =>
    by_cases hm : isMultipartFormData contentType = true
    · simp [hm, hup, isMultiPart]
    · simp [hm, hup]
  | cons f fs => simp [hup, isMultiPart]

theorem upstreamParsers_fold_nil (lib : Lib) (contentType : Option String)
    (parameters : List ComposedParameter)
    (h : ∀ p ∈ parameters, selectParser lib contentType p = none) :
    upstreamParsers lib contentType parameters = [] := by
  unfold upstreamParsers
  induction parameters with
  | nil => rfl
  | cons p ps ih =>
    simp only [List.foldl_cons, h p (List.mem_cons_self _ _), pushParser]
    exact ih (fun q hq => h q (List.mem_cons_of_mem _ hq))

/-- C13. When every parameter is located in `path` or `header`, neither the query parser nor the
structured-body parser nor the raw-text body parser is selected, and the list of parsers to run is
empty unless the content type is multipart/form-data. -/
theorem path_only_selects_nothing (lib : Lib) (contentType : Option String)
    (parameters : List ComposedParameter)
    (hloc : ∀ p ∈ parameters, p.schema.in_ = "path" ∨ p.schema.in_ = "header") :
    RequestParser.queryParser ∉ requestParsers lib contentType parameters ∧
    RequestParser.bodyParser ∉ requestParsers lib contentType parameters ∧
    RequestParser.textBodyParser ∉ requestParsers lib contentType parameters ∧
    (isMultipartFormData contentType = false → requestParsers lib contentType parameters = []) ∧
    (isMultipartFormData contentType = true →
      requestParsers lib contentType parameters = [RequestParser.multiPartArray]) := by
  have hsel : ∀ p ∈ parameters, selectParser lib contentType p = none := by
    intro p hp
    unfold selectParser
    rcases hloc p hp with h | h <;> simp [h]
  have hup := upstreamParsers_fold_nil lib contentType parameters hsel
  have hfields : multiPartFields lib parameters = [] := by
    unfold multiPartFields
    rw [List.filterMap_eq_nil_iff]
    intro p hp
    rcases hloc p hp with h | h <;> simp [h]
  unfold requestParsers
  simp only [hup, hfields]
  by_cases hm : isMultipartFormData contentType = true
  · simp [hm]
  · simp [hm]

/-- Witness of C13: a path parameter and a header parameter need no parser. -/
theorem path_only_selects_nothing_witness :
    requestParsers Reference.lib (some "application/json")
      [Sample.composed Sample.idParam, Sample.composed Sample.tokenHeader] = [] :=
  (path_only_selects_nothing Reference.lib (some "application/json")
    [Sample.composed Sample.idParam, Sample.composed Sample.tokenHeader]
    (by decide)).2.2.2.1 (by decide)

theorem runParser_guarded (lib : Lib) (parser : RequestParser) (req : Request)
    (h : (guardField parser req).isSome = true) :
    runParser lib parser req = { req := req, next := none } := by
  cases parser <;> simp only [guardField] at h <;> simp only [runParser] <;>
    (rw [if_neg]; intro hn; rw [Option.isNone_iff_eq_none] at hn; rw [hn] at h; cases h)

theorem runParsers_guarded (lib : Lib) (parsers : List RequestParser) (req : Request)
    (h : ∀ p ∈ parsers, (guardField p req).isSome = true) :
    runParsers lib parsers req = { req := req, next := none } := by
  induction parsers with
  | nil => rfl
  | cons p ps ih =>
    simp only [runParsers, runParser_guarded lib p req (h p (List.mem_cons_self _ _))]
    exact ih (fun q hq => h q (List.mem_cons_of_mem _ hq))

/-- C14. A wrapper whose request field is already populated leaves the request unchanged and calls
`next()` with no error, whatever the parser it wraps would do; the query wrapper on an undefined
`req.query` stores the parsed query string. Hence a list of parsers, and the pipeline, run on a
request whose fields are populated reparse nothing: no error, and `query`, `body` and `files` are
as before. -/
theorem guarded_parsers (lib : Lib) (req : Request) :
    (∀ parser, (guardField parser req).isSome = true →
      runParser lib parser req = { req := req, next := none }) ∧
    (req.query = none → runParser lib RequestParser.queryParser req =
      { req := { req with query := lib.parseQueryString req }, next := none }) ∧
    (∀ parsers, (∀ p ∈ parsers, (guardField p req).isSome = true) →
      runParsers lib parsers req = { req := req, next := none }) ∧
    (∀ md pathKeys pathMatch parameters, md.operationParameters = some parameters →
      (∀ p ∈ requestParsers lib req.contentType parameters, (guardField p req).isSome = true) →
      (processOperationParameters lib md pathKeys pathMatch req).next = none ∧
      (processOperationParameters lib md pathKeys pathMatch req).req.query = req.query ∧
      (processOperationParameters lib md pathKeys pathMatch req).req.body = req.body ∧
      (processOperationParameters lib md pathKeys pathMatch req).req.files = req.files) := by
  refine ⟨fun p h => runParser_guarded lib p req h, ?_, fun ps h => runParsers_guarded lib ps req h,
    ?_⟩
  · intro h
    simp [runParser, h]
  · intro md pathKeys pathMatch parameters hp hg
    unfold processOperationParameters
    rw [hp]
    simp [runParsers_guarded lib _ req hg]

/-- Witness of C14: on a populated request even a library whose JSON parser always fails reports
nothing. -/
theorem guarded_parsers_witness :
    runParsers Reference.failingLib
      [RequestParser.queryParser, RequestParser.bodyParser, RequestParser.multiPartArray]
      Sample.parsedRequest = { req := Sample.parsedRequest, next := none } :=
  (guarded_parsers Reference.failingLib Sample.parsedRequest).2.2.1
    [RequestParser.queryParser, RequestParser.bodyParser, RequestParser.multiPartArray]
    (by decide)

theorem runParsers_append (lib : Lib) (l1 l2 : List RequestParser) (req : Request)
    (hok : (runParsers lib l1 req).next = none) :
    runParsers lib (l1 ++ l2) req = runParsers lib l2 (runParsers lib l1 req).req := by
  induction l1 generalizing req with
  | nil => rfl
  | cons p ps ih =>
    simp only [List.cons_append, runParsers] at hok ⊢
    cases hr : runParser lib p req with
    | mk r n =>
      rw [hr] at hok
      cases n with
      | none => simp only at hok ⊢; exact ih r hok
      | some err => simp at hok

theorem runParsers_failure (lib : Lib) (l1 l2 : List RequestParser) (p : RequestParser)
    (req : Request) (err : String)
    (hok : (runParsers lib l1 req).next = none)
    (hfail : (runParser lib p (runParsers lib l1 req).req).next = some err) :
    (runParsers lib (l1 ++ p :: l2) req).next = some err := by
  rw [runParsers_append lib l1 (p :: l2) req hok]
  simp only [runParsers]
  cases hr : runParser lib p (runParsers lib l1 req).req with
  | mk r n =>
    rw [hr] at hfail
    simp only at hfail
    subst hfail
    rfl

/-- C15. When a selected parser, reached after the parsers before it succeeded, reports an error,
`processOperationParameters` calls `next` with that error and the metadata attached keeps its
empty `params`: no parameter is extracted. -/
theorem parser_failure_propagates (lib : Lib) (md : Metadata) (pathKeys : List Key)
    (pathMatch : Option (List String)) (req : Request) (parameters : List ComposedParameter)
    (l1 l2 : List RequestParser) (p : RequestParser) (err : String)
    (hparams : md.operationParameters = some parameters)
    (hattached : req.swagger = some md) (hempty : md.params = [])
    (hsplit : requestParsers lib req.contentType parameters = l1 ++ p :: l2)
    (hok : (runParsers lib l1 req).next = none)
    (hfail : (runParser lib p (runParsers lib l1 req).req).next = some err) :
    (processOperationParameters lib md pathKeys pathMatch req).next = some err ∧
    ∃ md1, (processOperationParameters lib md pathKeys pathMatch req).req.swagger = some md1 ∧
      md1.params = [] := by
  have hrun := runParsers_failure lib l1 l2 p req err hok hfail
  rw [← hsplit] at hrun
  have hsw := runParsers_swagger lib (requestParsers lib req.contentType parameters) req
  unfold processOperationParameters
  rw [hparams]
  simp only
  cases hr : runParsers lib (requestParsers lib req.contentType parameters) req with
  | mk r n =>
    rw [hr] at hrun hsw
    simp only at hrun hsw
    subst hrun
    exact ⟨rfl, md, hsw.trans hattached, hempty⟩

/-- C16 (amended). When the middleware calls `next` with an error, an entry was selected and the
metadata attached before the parsers ran is still attached: it is the metadata made for the entry
and the method, with its operation and with empty `params`. -/
theorem metadata_kept_on_parse_error (lib : Lib) (apiCache : ApiCache) (req : Request)
    (err : String) (herr : (swaggerMetadata lib apiCache req).next = some err) :
    ∃ e m, selectEntry apiCache (jsString (lib.pathname req.url)) = some (e, m) ∧
      (swaggerMetadata lib apiCache req).req.swagger =
        some (makeMetadata e (toLowerCase req.method)) ∧
      (makeMetadata e (toLowerCase req.method)).operation.isSome = true ∧
      (makeMetadata e (toLowerCase req.method)).params = [] := by
  cases hs : selectEntry apiCache (jsString (lib.pathname req.url)) with
  | none =>
    rw [swaggerMetadata_unselected lib apiCache req hs] at herr
    cases herr
  | some em =>
    obtain ⟨e, m⟩ := em
    refine ⟨e, m, rfl, ?_⟩
    have hparams : (makeMetadata e (toLowerCase req.method)).params = [] := by
      unfold makeMetadata
      cases objGet e.operations (toLowerCase req.method) <;> rfl
    unfold swaggerMetadata at herr ⊢
    simp only [hs] at herr ⊢
    by_cases hop : (makeMetadata e (toLowerCase req.method)).operation.isSome = true
    · simp only [hop, if_true] at herr ⊢
      refine ⟨?_, trivial, hparams⟩
      unfold processOperationParameters at herr ⊢
      cases hp : (makeMetadata e (toLowerCase req.method)).operationParameters with
      | none => rw [hp] at herr
      | some parameters =>
        rw [hp] at herr
        simp only at herr ⊢
        have hsw := runParsers_swagger lib
          (requestParsers lib req.contentType parameters)
          { req with swagger := some (makeMetadata e (toLowerCase req.method)) }
        cases hr : runParsers lib (requestParsers lib req.contentType parameters)
            { req with swagger := some (makeMetadata e (toLowerCase req.method)) } with
        | mk r n =>
          rw [hr] at herr hsw
          cases n with
          | none => cases herr
          | some e2 => exact hsw
    · simp only [hop] at herr
      cases herr

/-- Witness of C15: the error of the JSON body parser is the argument of `next`. -/
theorem parser_failure_propagates_witness :
    (processOperationParameters Reference.failingLib
      (makeMetadata (Sample.entryAt (Sample.cacheOf Sample.orders) 0) "post") [] none
      { Sample.requestOf "POST" "/orders" "application/json" with
        swagger := some (makeMetadata (Sample.entryAt (Sample.cacheOf Sample.orders) 0) "post") }
      ).next = some "entity.parse.failed" :=
  (parser_failure_propagates Reference.failingLib
    (makeMetadata (Sample.entryAt (Sample.cacheOf Sample.orders) 0) "post") [] none
    { Sample.requestOf "POST" "/orders" "application/json" with
      swagger := some (makeMetadata (Sample.entryAt (Sample.cacheOf Sample.orders) 0) "post") }
    (composeParameters ["paths", "/orders"] "post" Sample.ordersItem Sample.createOrder)
    [] [] RequestParser.bodyParser "entity.parse.failed" rfl rfl rfl (by decide) rfl
    (by decide)).1

/-- Witness of C16 (amended). -/
theorem metadata_kept_on_parse_error_witness :
    ∃ e m, selectEntry (Sample.cacheOf Sample.orders) "/orders" = some (e, m) ∧
      (swaggerMetadata Reference.failingLib (Sample.cacheOf Sample.orders)
        (Sample.requestOf "POST" "/orders" "application/json")).req.swagger =
        some (makeMetadata e "post") ∧
      (makeMetadata e "post").operation.isSome = true ∧
      (makeMetadata e "post").params = [] :=
  metadata_kept_on_parse_error Reference.failingLib (Sample.cacheOf Sample.orders)
    (Sample.requestOf "POST" "/orders" "application/json") "entity.parse.failed" (by decide)

/-- Counterexample to C16: the JSON body parser fails, `next` receives its error, and `req.swagger`
is attached. -/
theorem metadata_attached_on_parse_error :
    (swaggerMetadata Reference.failingLib (Sample.cacheOf Sample.orders)
      (Sample.requestOf "POST" "/orders" "application/json")).next =
        some "entity.parse.failed" ∧
    (swaggerMetadata Reference.failingLib (Sample.cacheOf Sample.orders)
      (Sample.requestOf "POST" "/orders" "application/json")).req.swagger.isSome = true := by
  decide

/-! ## Initialization -/

/-- C17. `initializeMiddleware` throws `rlOrSO is required` for an undefined document and
`rlOrSO must be an object` for one that is no plain object, whatever the second argument; for a
plain-object document (and `getSpec()` returning) it throws `callback is required` for an undefined
second argument and `callback must be a function` for one that is no function. -/
theorem initializeMiddleware_arguments (env : InitEnv) (arg1 : CallbackArgument) :
    initializeMiddleware env DocArg.undefined arg1 = .error (newError "rlOrSO is required") ∧
    initializeMiddleware env DocArg.notPlainObject arg1 =
      .error (newTypeError "rlOrSO must be an object") ∧
    (env.getSpec = none → ∀ d,
      initializeMiddleware env (DocArg.doc d) CallbackArgument.undefined =
        .error (newError "callback is required") ∧
      initializeMiddleware env (DocArg.doc d) CallbackArgument.notFunction =
        .error (newTypeError "callback must be a function")) := by
  refine ⟨rfl, rfl, ?_⟩
  intro h d
  simp [initializeMiddleware, h]

/-- Witness of C17. -/
theorem initializeMiddleware_arguments_witness :
    initializeMiddleware (Sample.envOf none) (DocArg.doc Sample.petstore)
        CallbackArgument.undefined = .error (newError "callback is required") ∧
    initializeMiddleware (Sample.envOf none) (DocArg.doc Sample.petstore)
        CallbackArgument.notFunction = .error (newTypeError "callback must be a function") :=
  (initializeMiddleware_arguments (Sample.envOf none) CallbackArgument.undefined).2.2 rfl
    Sample.petstore

theorem foldl_errors (l : List (Option ApiDeclarationResult)) (n : Nat) :
    l.foldl (fun count apiDeclaration =>
      count + (match apiDeclaration with
        | some ad => ad.errors.length
        | none => 0)) n =
      n + ((l.filterMap id).map (fun ad => ad.errors.length)).sum := by
  induction l generalizing n with
  | nil => simp
  | cons x xs ih =>
    cases x with
    | none => simp [ih]
    | some ad => simp [ih, Nat.add_assoc]

theorem totalErrors_eq (results : ValidationResults) :
    totalErrors results = presentErrorCount results := by
  unfold totalErrors presentErrorCount
  congr 1
  exact (foldl_errors _ 0).trans (Nat.zero_add _)

/-- C18. When the validator hands over no error: if the errors of the document plus the errors of
every present API declaration are more than zero, the failure `Swagger document(s) failed
validation so the server cannot start`, with `failedValidation` true and the results attached, is
reported (handed to the callback in test mode, otherwise printed before the process exits with
code 1); if they are zero, whatever the warnings, the first call of the callback hands it the
middleware set, and it is the only call when the callback returns. -/
theorem validation_outcome (env : InitEnv) (d : Document)
    (callback : CallbackValue → Option JsError) (results : Option ValidationResults)
    (hspec : env.getSpec = none) (hval : env.validate d = .ok (none, results)) :
    (∀ r, results = some r → 0 < presentErrorCount r →
      initializeMiddleware env (DocArg.doc d) (CallbackArgument.function callback) =
        .ok (if env.runningTests = true then
            { calls := [CallbackValue.error (validationFailure r)], report := none, exit := none,
              thrown := callback (CallbackValue.error (validationFailure r)) }
          else
            { calls := [], report := some Report.validationResults, exit := some 1,
              thrown := none })) ∧
    ((∀ r, results = some r → presentErrorCount r = 0) →
      ∃ out, initializeMiddleware env (DocArg.doc d) (CallbackArgument.function callback) =
          .ok out ∧
        out.calls.head? = some (CallbackValue.middleware d) ∧
        (callback (CallbackValue.middleware d) = none →
          out = { calls := [CallbackValue.middleware d], report := none, exit := none,
                  thrown := none })) := by
  constructor
  · intro r hr hpos
    have hv : validationError none results = some (validationFailure r) := by
      rw [hr]
      simp [validationError, totalErrors_eq, hpos, validationFailure]
    simp only [initializeMiddleware, hspec, hval, onValidated, hv, onCaught]
    by_cases ht : env.runningTests = true
    · simp [ht, validationFailure]
    · simp [ht, validationFailure]
  · intro hzero
    have hv : validationError none results = none := by
      cases results with
      | none => rfl
      | some r => simp [validationError, totalErrors_eq, hzero r rfl]
    simp only [initializeMiddleware, hspec, hval, onValidated, hv]
    cases hc : callback (CallbackValue.middleware d) with
    | none => exact ⟨_, rfl, rfl, fun _ => rfl⟩
    | some e =>
      refine ⟨_, rfl, ?_, fun h => by cases h⟩
      simp only [onCaught]
      split_ifs <;> rfl

/-- Witness of C18: one error in the document, in test mode. -/
theorem validation_outcome_witness :
    initializeMiddleware (Sample.envOf (some Sample.failedResults)) (DocArg.doc Sample.petstore)
        (CallbackArgument.function (fun _ => none)) =
      .ok { calls := [CallbackValue.error (validationFailure Sample.failedResults)],
            report := none, exit := none, thrown := none } :=
  (validation_outcome (Sample.envOf (some Sample.failedResults)) Sample.petstore (fun _ => none)
    (some Sample.failedResults) rfl rfl).1 Sample.failedResults rfl (by decide)

/-! ## The operations index and the entries of the cache -/

theorem mem_objSet {α : Type} (o : List (String × α)) (k : String) (v : α) (kv : String × α)
    (h : kv ∈ objSet o k v) : kv = (k, v) ∨ kv ∈ o := by
  induction o with
  | nil => simpa [objSet] using h
  | cons x xs ih =>
    obtain ⟨k0, v0⟩ := x
    simp only [objSet] at h
    split_ifs at h
    · rcases List.mem_cons.1 h with h1 | h1
      · exact Or.inl h1
      · exact Or.inr (List.mem_cons_of_mem _ h1)
    · rcases List.mem_cons.1 h with h1 | h1
      · exact Or.inr (h1 ▸ List.mem_cons_self _ _)
      · rcases ih h1 with h2 | h2
        · exact Or.inl h2
        · exact Or.inr (List.mem_cons_of_mem _ h2)

theorem objSet_of_not_mem {α : Type} (o : List (String × α)) (k : String) (v : α)
    (h : k ∉ o.map Prod.fst) : objSet o k v = o ++ [(k, v)] := by
  induction o with
  | nil => rfl
  | cons x xs ih =>
    obtain ⟨k0, v0⟩ := x
    simp only [List.map_cons, List.mem_cons, not_or] at h
    have hne : (k0 == k) = false := by simpa using fun hh => h.1 hh.symm
    simp [objSet, hne, ih h.2]

theorem objSet_append_self {α : Type} (o : List (String × α)) (k : String) (v v2 : α)
    (h : k ∉ o.map Prod.fst) : objSet (o ++ [(k, v)]) k v2 = o ++ [(k, v2)] := by
  induction o with
  | nil => simp [objSet]
  | cons x xs ih =>
    obtain ⟨k0, v0⟩ := x
    simp only [List.map_cons, List.mem_cons, not_or] at h
    have hne : (k0 == k) = false := by simpa using fun hh => h.1 hh.symm
    simp [objSet, hne, ih h.2]

theorem objSet_objSet {α : Type} (o : List (String × α)) (k : String) (v v2 : α) :
    objSet (objSet o k v) k v2 = objSet o k v2 := by
  induction o with
  | nil => simp [objSet]
  | cons x xs ih =>
    obtain ⟨k0, v0⟩ := x
    by_cases h : (k0 == k) = true
    · simp [objSet, h]
    · simp [objSet, h, ih]

theorem buildOperations_fold_get (path : PathItem) (pathName : String) (ms : List String)
    (acc : List (String × OperationEntry)) (m : String) :
    objGet (ms.foldl (fun ops method =>
      match path.op method with
      | none => ops
      | some operation =>
        objSet ops method
          { operation := operation
            operationPath := ["paths", pathName, method]
            operationParameters := composeParameters ["paths", pathName] method path operation })
      acc) m =
    if m ∈ ms ∧ (path.op m).isSome = true then
      (path.op m).map (fun operation =>
        { operation := operation
          operationPath := ["paths", pathName, m]
          operationParameters := composeParameters ["paths", pathName] m path operation })
    else objGet acc m := by
  induction ms generalizing acc with
  | nil => simp
  | cons x xs ih =>
    simp only [List.foldl_cons]
    rw [ih]
    by_cases hxs : m ∈ xs ∧ (path.op m).isSome = true
    · rw [if_pos hxs, if_pos ⟨List.mem_cons_of_mem _ hxs.1, hxs.2⟩]
    · rw [if_neg hxs]
      cases hx : path.op x with
      | none =>
        simp only
        by_cases hm : m ∈ x :: xs ∧ (path.op m).isSome = true
        · exfalso
          rcases List.mem_cons.1 hm.1 with h1 | h1
          · rw [h1, hx] at hm; simp at hm
          · exact hxs ⟨h1, hm.2⟩
        · rw [if_neg hm]
      | some operation =>
        simp only
        rw [objGet_objSet]
        by_cases hmx : m = x
        · subst hmx
          rw [if_pos rfl, if_pos ⟨List.mem_cons_self _ _, by simp [hx]⟩, hx]
          rfl
        · rw [if_neg hmx]
          have hm : ¬ (m ∈ x :: xs ∧ (path.op m).isSome = true) := by
            rintro ⟨h1, h2⟩
            rcases List.mem_cons.1 h1 with h3 | h3
            · exact hmx h3
            · exact hxs ⟨h3, h2⟩
          rw [if_neg hm]

theorem op_none_of_not_method (path : PathItem) (m : String) (h : m ∉ methods) :
    path.op m = none := by
  simp only [methods, List.mem_cons, List.mem_singleton, List.not_mem_nil, or_false,
    not_or] at h
  obtain ⟨h1, h2, h3, h4, h5, h6, h7⟩ := h
  simp [PathItem.op, h1, h2, h3, h4, h5, h6, h7]

theorem buildOperations_get (path : PathItem) (pathName : String) (m : String) :
    objGet (buildOperations path pathName) m =
      if m ∈ methods then
        (path.op m).map (fun operation =>
          { operation := operation
            operationPath := ["paths", pathName, m]
            operationParameters := composeParameters ["paths", pathName] m path operation })
      else none := by
  unfold buildOperations
  refine (buildOperations_fold_get path pathName methods [] m).trans ?_
  by_cases hm : m ∈ methods
  · rw [if_pos hm]
    cases hop : path.op m with
    | none => simp [objGet]
    | some operation => simp [hm]
  · rw [if_neg hm, if_neg (fun h => hm h.1)]
    rfl

theorem buildCache_all (lib : Lib) (rlOrSO resolved : Document)
    (all paths : List (String × PathItem)) (c0 c : ApiCache)
    (hsub : ∀ q ∈ paths, q ∈ all)
    (h0 : ∀ kv ∈ c0, (kv.2.apiPath, kv.2.path) ∈ all ∧
      kv.2.operations = buildOperations kv.2.path kv.2.apiPath)
    (h : buildCache lib rlOrSO resolved paths c0 = .ok c) :
    ∀ kv ∈ c, (kv.2.apiPath, kv.2.path) ∈ all ∧
      kv.2.operations = buildOperations kv.2.path kv.2.apiPath := by
  induction paths generalizing c0 with
  | nil =>
    simp only [buildCache, Except.ok.injEq] at h
    rw [← h]; exact h0
  | cons q rest ih =>
    obtain ⟨pathName, path⟩ := q
    simp only [buildCache] at h
    cases hc : createCacheEntry lib rlOrSO c0 resolved path pathName with
    | error err => rw [hc] at h; cases h
    | ok r =>
      obtain ⟨c1, k, e⟩ := r
      rw [hc] at h
      simp only at h
      obtain ⟨_, _, _, hk, hc1, hap, hpa, _, _⟩ := createCacheEntry_ok _ _ _ _ _ _ _ _ _ hc
      refine ih _ (fun q hq => hsub q (List.mem_cons_of_mem _ hq)) ?_ h
      intro kv hkv
      rw [hc1, objSet_objSet] at hkv
      rcases mem_objSet _ _ _ _ hkv with h1 | h1
      · rw [h1]
        simp only [hap, hpa]
        exact ⟨hsub _ (List.mem_cons_self _ _), trivial⟩
      · exact h0 kv h1

theorem mem_of_objGet {α : Type} (o : List (String × α)) (k : String) (v : α)
    (h : objGet o k = some v) : (k, v) ∈ o := by
  induction o with
  | nil => simp [objGet] at h
  | cons x xs ih =>
    obtain ⟨k0, v0⟩ := x
    unfold objGet at h ih
    by_cases hk : (k == k0) = true
    · simp only [List.lookup, hk, Option.some.injEq] at h
      have : k = k0 := by simpa using hk
      rw [this, h]; exact List.mem_cons_self _ _
    · simp only [List.lookup, hk] at h
      exact List.mem_cons_of_mem _ (ih h)

/-- C19. Every entry of the built cache comes from a declared path, and its `operations` holds an
entry for a method exactly when the method is one of `get`, `put`, `post`, `delete`, `options`,
`head`, `patch` and the path item defines it; the entry stores the operation, the path
`['paths', pathName, method]` and the list `composeParameters` yields. A declared path whose
express-style path no other declared path shares has its entry in the cache. -/
theorem operations_index (lib : Lib) (d resolved : Document) (apiCache : ApiCache)
    (hres : lib.resolve d = some resolved)
    (hbuild : processSwaggerDocuments lib (DocArg.doc d) = .ok apiCache) :
    (∀ kv ∈ apiCache, (kv.2.apiPath, kv.2.path) ∈ resolved.paths.getD [] ∧
      ∀ m, objGet kv.2.operations m =
        if m ∈ methods then
          (kv.2.path.op m).map (fun operation =>
            { operation := operation
              operationPath := ["paths", kv.2.apiPath, m]
              operationParameters :=
                composeParameters ["paths", kv.2.apiPath] m kv.2.path operation })
        else none) ∧
    (∀ P item, (P, item) ∈ resolved.paths.getD [] →
      (∀ q ∈ resolved.paths.getD [],
        expressStylePath lib resolved.basePath q.1 = expressStylePath lib resolved.basePath P →
          q = (P, item)) →
      ∃ kv ∈ apiCache, kv.2.apiPath = P ∧ kv.2.path = item) := by
  simp only [processSwaggerDocuments, hres] at hbuild
  constructor
  · intro kv hkv
    obtain ⟨h1, h2⟩ := buildCache_all lib d resolved (resolved.paths.getD [])
      (resolved.paths.getD []) [] apiCache (fun _ hq => hq) (by simp) hbuild kv hkv
    refine ⟨h1, fun m => ?_⟩
    rw [h2]
    exact buildOperations_get kv.2.path kv.2.apiPath m
  · intro P item hP huniq
    obtain ⟨e, he, hap, hpa, _⟩ :=
      buildCache_entry lib d resolved _ [] apiCache P item hbuild hP huniq
    exact ⟨_, mem_of_objGet _ _ _ he, hap, hpa⟩

/-- Witness of C19: `post` is indexed, the key `parameters` is not. -/
theorem operations_index_witness :
    objGet (Sample.entryAt (Sample.cacheOf Sample.orders) 0).operations "post" =
      some { operation := Sample.createOrder
             operationPath := ["paths", "/orders", "post"]
             operationParameters :=
               composeParameters ["paths", "/orders"] "post" Sample.ordersItem
                 Sample.createOrder } ∧
    objGet (Sample.entryAt (Sample.cacheOf Sample.orders) 0).operations "parameters" = none :=
  ⟨(((operations_index Reference.lib Sample.orders Sample.orders (Sample.cacheOf Sample.orders)
      rfl rfl).1 ("/orders", Sample.entryAt (Sample.cacheOf Sample.orders) 0)
      (List.Mem.head _)).2 "post").trans (by decide),
   (((operations_index Reference.lib Sample.orders Sample.orders (Sample.cacheOf Sample.orders)
      rfl rfl).1 ("/orders", Sample.entryAt (Sample.cacheOf Sample.orders) 0)
      (List.Mem.head _)).2 "parameters").trans (by decide)⟩

theorem buildCache_entries (lib : Lib) (rlOrSO resolved : Document)
    (paths : List (String × PathItem)) (c0 c : ApiCache)
    (h : buildCache lib rlOrSO resolved paths c0 = .ok c)
    (hnd : (paths.map (fun q => expressStylePath lib resolved.basePath q.1)).Nodup)
    (hdis : ∀ q ∈ paths, expressStylePath lib resolved.basePath q.1 ∉ c0.map Prod.fst) :
    c.map (fun kv => (kv.1, kv.2.apiPath, kv.2.path)) =
      c0.map (fun kv => (kv.1, kv.2.apiPath, kv.2.path)) ++
        paths.map (fun q => (expressStylePath lib resolved.basePath q.1, q.1, q.2)) := by
  induction paths generalizing c0 with
  | nil =>
    simp only [buildCache, Except.ok.injEq] at h
    simp [h]
  | cons q rest ih =>
    obtain ⟨pathName, path⟩ := q
    simp only [buildCache] at h
    cases hc : createCacheEntry lib rlOrSO c0 resolved path pathName with
    | error err => rw [hc] at h; cases h
    | ok r =>
      obtain ⟨c1, k, e⟩ := r
      rw [hc] at h
      simp only at h
      obtain ⟨_, _, _, hk, hc1, hap, hpa, _, _⟩ := createCacheEntry_ok _ _ _ _ _ _ _ _ _ hc
      have hk0 : k ∉ c0.map Prod.fst := by
        rw [hk]; exact hdis (pathName, path) (List.mem_cons_self _ _)
      rw [hc1, objSet_objSet, objSet_of_not_mem _ _ _ hk0] at h
      simp only [List.map_cons, List.nodup_cons] at hnd
      have hdis2 : ∀ q ∈ rest, expressStylePath lib resolved.basePath q.1 ∉
          (c0 ++ [(k, { e with operations := buildOperations path pathName })]).map Prod.fst := by
        intro q hq hmem
        simp only [List.map_append, List.map_cons, List.map_nil, List.mem_append,
          List.mem_singleton] at hmem
        rcases hmem with h1 | h1
        · exact hdis q (List.mem_cons_of_mem _ hq) h1
        · exact hnd.1 (List.mem_map.2 ⟨q, hq, by rw [h1, hk]⟩)
      rw [ih _ h hnd.2 hdis2]
      simp [hk, hap, hpa]

/-- C20 (amended). When the declared paths have pairwise distinct express-style paths, the cache
holds exactly one entry per declared path, in declaration order, stored under its express-style
path. -/
theorem one_entry_per_declared_path (lib : Lib) (d resolved : Document) (apiCache : ApiCache)
    (hres : lib.resolve d = some resolved)
    (hbuild : processSwaggerDocuments lib (DocArg.doc d) = .ok apiCache)
    (hnd : ((resolved.paths.getD []).map
      (fun q => expressStylePath lib resolved.basePath q.1)).Nodup) :
    apiCache.map (fun kv => (kv.2.apiPath, kv.2.path)) = resolved.paths.getD [] ∧
    apiCache.map Prod.fst =
      (resolved.paths.getD []).map (fun q => expressStylePath lib resolved.basePath q.1) ∧
    apiCache.length = (resolved.paths.getD []).length := by
  simp only [processSwaggerDocuments, hres] at hbuild
  have h := buildCache_entries lib d resolved _ [] apiCache hbuild hnd (by simp)
  simp only [List.map_nil, List.nil_append] at h
  have h1 := congrArg (List.map (fun t : String × String × PathItem => (t.2.1, t.2.2))) h
  have h2 := congrArg (List.map (fun t : String × String × PathItem => t.1)) h
  have h3 := congrArg List.length h
  simp only [List.map_map, List.length_map] at h1 h2 h3
  refine ⟨?_, ?_, h3⟩
  · refine h1.trans ?_
    conv_rhs => rw [← List.map_id (resolved.paths.getD [])]
    rfl
  · exact h2

/-- Witness of C20 (amended). -/
theorem one_entry_per_declared_path_witness :
    (Sample.cacheOf Sample.petstore).map (fun kv => kv.2.apiPath) =
      ["/pets/{id}", "/pets/mine", "/pets", "/files"] :=
  (congrArg (List.map Prod.fst)
    (one_entry_per_declared_path Reference.lib Sample.petstore Sample.petstore
      (Sample.cacheOf Sample.petstore) rfl rfl (by decide)).1).trans (by decide)

/-- Counterexample to C20: two declared paths with the same express-style path leave one entry. -/
theorem colliding_paths_share_an_entry :
    ((Sample.colliding.paths.getD []).map Prod.fst = ["/pets/{id}", "/pets/:id"]) ∧
    (processSwaggerDocuments Reference.lib (DocArg.doc Sample.colliding)).toOption.map
      (fun apiCache => apiCache.map (fun kv => kv.2.apiPath)) = some ["/pets/:id"] := by
  decide

/-! ## Provenance paths, extraction and the shape of express-style paths -/

theorem operationEntries_length (apiPath : List String) (method : String) (ps : List Parameter) :
    (operationEntries apiPath method ps).length = ps.length := by
  simp [operationEntries]

theorem operationEntries_getElem? (apiPath : List String) (method : String)
    (ps : List Parameter) (i : Nat) :
    (operationEntries apiPath method ps)[i]? =
      ps[i]?.map (fun p =>
        { path := apiPath ++ [method, "parameters", toString i], schema := p }) := by
  unfold operationEntries
  rw [List.getElem?_map, List.getElem?_enum]
  cases ps[i]? <;> rfl

theorem mem_pathEntries (apiPath : List String) (seen : List String) (ps : List Parameter)
    (c : ComposedParameter) :
    c ∈ pathEntries apiPath seen ps ↔
      ∃ (j : Nat) (q : Parameter), ps[j]? = some q ∧ seenKey q ∉ seen ∧
        c = { path := apiPath ++ ["parameters", toString j], schema := q } := by
  unfold pathEntries
  simp only [List.mem_map, List.mem_filter, List.mem_enum_iff_getElem?, Bool.not_eq_true,
    Bool.not_eq_eq_eq_not, Bool.not_true]
  constructor
  · rintro ⟨⟨j, q⟩, ⟨hq, hs⟩, rfl⟩
    refine ⟨j, q, hq, ?_, rfl⟩
    simpa using hs
  · rintro ⟨j, q, hq, hs, rfl⟩
    refine ⟨(j, q), ⟨hq, ?_⟩, rfl⟩
    simpa using hs

/-- C21. In the list `composeParameters` builds for a path and a method, the entry at the
position of the operation's i-th parameter holds that parameter with the path
`['paths', pathName, method, 'parameters', i]`, and the entries after the operation's are exactly
the path-level parameters not seen among the operation's, each with the path
`['paths', pathName, 'parameters', j]`, j being its index in the path item's own list; the
indices are written in decimal. -/
theorem provenance_paths (pathName method : String) (path : PathItem) (operation : Operation) :
    (∀ (i : Nat) (p : Parameter), (operation.parameters.getD [])[i]? = some p →
      (composeParameters ["paths", pathName] method path operation)[i]? =
        some ({ path := ["paths", pathName, method, "parameters", toString i], schema := p } :
          ComposedParameter)) ∧
    (∀ c, c ∈ (composeParameters ["paths", pathName] method path operation).drop
        (operation.parameters.getD []).length ↔
      ∃ (j : Nat) (q : Parameter), (path.parameters.getD [])[j]? = some q ∧
        seenKey q ∉ (operation.parameters.getD []).map seenKey ∧
        c = { path := ["paths", pathName, "parameters", toString j], schema := q }) := by
  constructor
  · intro i p hp
    have hlt : i < (operationEntries ["paths", pathName] method
        (operation.parameters.getD [])).length := by
      rw [operationEntries_length]
      exact (List.getElem?_eq_some_iff.1 hp).1
    unfold composeParameters
    simp only
    rw [List.getElem?_append_left hlt, operationEntries_getElem?, hp]
    rfl
  · intro c
    unfold composeParameters
    simp only
    rw [← operationEntries_length ["paths", pathName] method (operation.parameters.getD []),
      List.drop_left, mem_pathEntries]
    rfl

/-- Witness of C21: the retained path-level parameter is third in the composed list and carries
its index 1 in the path item's list. -/
theorem provenance_paths_witness :
    (composeParameters ["paths", "/pets"] "put" Sample.petsItem Sample.updatePet)[1]? =
      some { path := ["paths", "/pets", "put", "parameters", "1"], schema := Sample.petBody } ∧
    ({ path := ["paths", "/pets", "parameters", "1"], schema := Sample.idParam } :
        ComposedParameter) ∈
      (composeParameters ["paths", "/pets"] "put" Sample.petsItem Sample.updatePet).drop 2 :=
  ⟨(provenance_paths "/pets" "put" Sample.petsItem Sample.updatePet).1 1 Sample.petBody rfl,
   ((provenance_paths "/pets" "put" Sample.petsItem Sample.updatePet).2 _).2
     ⟨1, Sample.idParam, rfl, by decide, rfl⟩⟩

theorem startsWithChar_iff (s : List Char) (c : Char) :
    startsWithChar s c = true ↔ s.head? = some c := by
  cases s with
  | nil => simp [startsWithChar]
  | cons x xs => simp [startsWithChar]

theorem endsWithChar_iff (s : List Char) (c : Char) :
    endsWithChar s c = true ↔ s.getLast? = some c := by
  unfold endsWithChar
  cases h : s.getLast? with
  | none => simp
  | some x => simp

theorem baseOrRoot_ne_empty (basePath : Option String) : baseOrRoot basePath ≠ "" := by
  unfold baseOrRoot
  cases basePath with
  | none => decide
  | some b =>
    by_cases hb : b = ""
    · simp [hb]
    · simp [hb]

theorem substring1_eq (t : List Char) :
    (if startsWithChar t '/' then substring1 t else t) = withoutLeadingSlash t := by
  cases t with
  | nil => rfl
  | cons x xs =>
    by_cases hx : x = '/'
    · subst hx; rfl
    · have hb : (x == '/') = false := by simpa using hx
      simp [startsWithChar, hb, withoutLeadingSlash, hx]

theorem normalize_eq (b : List Char) :
    (if !endsWithChar (if !startsWithChar b '/' then '/' :: b else b) '/'
      then (if !startsWithChar b '/' then '/' :: b else b) ++ ['/']
      else (if !startsWithChar b '/' then '/' :: b else b)) = slashDelimited b := by
  unfold slashDelimited
  have h1 : (if !startsWithChar b '/' then '/' :: b else b) =
      (if b.head? = some '/' then b else '/' :: b) := by
    by_cases hs : startsWithChar b '/' = true
    · rw [if_pos ((startsWithChar_iff b '/').1 hs)]; simp [hs]
    · rw [if_neg (fun h => hs ((startsWithChar_iff b '/').2 h))]; simp [hs]
  rw [h1]
  simp only
  by_cases he : endsWithChar (if b.head? = some '/' then b else '/' :: b) '/' = true
  · rw [if_pos ((endsWithChar_iff _ '/').1 he)]; simp [he]
  · rw [if_neg (fun h => he ((endsWithChar_iff _ '/').2 h))]; simp [he]

theorem expressStylePath_data (lib : Lib) (basePath : Option String) (apiPath : String) :
    ∃ b : List Char, (expressStylePath lib basePath apiPath).data =
        replaceBraces (slashDelimited b ++ withoutLeadingSlash apiPath.data) ∧
      (lib.pathname (baseOrRoot basePath) = some (baseOrRoot basePath) →
        b = (baseOrRoot basePath).data) := by
  refine ⟨match lib.pathname (baseOrRoot basePath) with
    | none => ['/']
    | some p => if p = "" then ['/'] else p.data, ?_, ?_⟩
  · unfold expressStylePath
    simp only
    rw [substring1_eq, normalize_eq]
    rfl
  · intro h
    rw [h]
    simp [baseOrRoot_ne_empty]

theorem replaceBraces_append (a b : List Char) :
    replaceBraces (a ++ b) = replaceBraces a ++ replaceBraces b := by
  simp [replaceBraces]

theorem slashDelimited_head (b : List Char) : ∃ rest, slashDelimited b = '/' :: rest := by
  unfold slashDelimited
  simp only
  by_cases h : b.head? = some '/'
  · cases b with
    | nil => simp at h
    | cons x xs =>
      simp only [List.head?_cons, Option.some.injEq] at h
      subst h
      simp only [List.head?_cons, if_true]
      split_ifs
      · exact ⟨_, rfl⟩
      · exact ⟨_, rfl⟩
  · simp only [h, if_false]
    split_ifs
    · exact ⟨_, rfl⟩
    · exact ⟨_, rfl⟩

theorem replaceBraces_placeholder (a name b : List Char) (h1 : '{' ∉ name) (h2 : '}' ∉ name) :
    replaceBraces (a ++ '{' :: name ++ '}' :: b) =
      replaceBraces a ++ ':' :: name ++ replaceBraces b := by
  have hn := replaceBraces_id name h1 h2
  have hsplit : a ++ '{' :: name ++ '}' :: b = a ++ (['{'] ++ (name ++ (['}'] ++ b))) := by simp
  rw [hsplit, replaceBraces_append, replaceBraces_append, replaceBraces_append,
    replaceBraces_append, hn]
  simp [replaceBraces]

theorem withoutLeadingSlash_placeholder (pre name post : List Char) :
    ∃ pre2, withoutLeadingSlash (pre ++ '{' :: name ++ '}' :: post) =
      pre2 ++ '{' :: name ++ '}' :: post := by
  cases pre with
  | nil => exact ⟨[], rfl⟩
  | cons x xs =>
    by_cases hx : x = '/'
    · subst hx; exact ⟨xs, rfl⟩
    · exact ⟨x :: xs, by simp [withoutLeadingSlash, hx]⟩

theorem extractParameter_eq (lib : Lib) (pathKeys : List Key) (pathMatch : Option (List String))
    (req : Request) (params : List (String × ParamValue) × Option ParamValue)
    (c : ComposedParameter) :
    extractParameter lib pathKeys pathMatch req params c =
      assignParam params c.schema.name (paramValueOf lib pathKeys pathMatch req c) := rfl

theorem assignParam_get (params : List (String × ParamValue) × Option ParamValue)
    (name : String) (value : ParamValue) (k : String) :
    objGet (assignParam params name value).1 k =
      if k = name ∧ name ≠ "__proto__" then some value else objGet params.1 k := by
  unfold assignParam
  by_cases hp : name = "__proto__"
  · simp [hp]
  · simp only [hp, if_false, objGet_objSet]
    by_cases hk : k = name <;> simp [hk, hp]

theorem extract_fold_absent (lib : Lib) (pathKeys : List Key) (pathMatch : Option (List String))
    (req : Request) (ps : List ComposedParameter)
    (acc : List (String × ParamValue) × Option ParamValue) (name : String)
    (h : ∀ q ∈ ps, q.schema.name ≠ name ∨ name = "__proto__") :
    objGet (ps.foldl (extractParameter lib pathKeys pathMatch req) acc).1 name =
      objGet acc.1 name := by
  induction ps generalizing acc with
  | nil => rfl
  | cons p ps ih =>
    simp only [List.foldl_cons]
    rw [ih _ (fun q hq => h q (List.mem_cons_of_mem _ hq)), extractParameter_eq, assignParam_get]
    rw [if_neg]
    rintro ⟨h1, h2⟩
    rcases h p (List.mem_cons_self _ _) with h3 | h3
    · exact h3 h1.symm
    · exact h2 (h1 ▸ h3)

theorem extract_fold_last (lib : Lib) (pathKeys : List Key) (pathMatch : Option (List String))
    (req : Request) (l1 l2 : List ComposedParameter) (p : ComposedParameter)
    (acc : List (String × ParamValue) × Option ParamValue)
    (hp : p.schema.name ≠ "__proto__") (h : ∀ q ∈ l2, q.schema.name ≠ p.schema.name) :
    objGet ((l1 ++ p :: l2).foldl (extractParameter lib pathKeys pathMatch req) acc).1
      p.schema.name = some (paramValueOf lib pathKeys pathMatch req p) := by
  rw [List.foldl_append, List.foldl_cons,
    extract_fold_absent _ _ _ _ _ _ _ (fun q hq => Or.inl (h q hq)),
    extractParameter_eq, assignParam_get, if_pos ⟨rfl, hp⟩]

theorem extract_fold_prototype (lib : Lib) (pathKeys : List Key)
    (pathMatch : Option (List String)) (req : Request) (l1 l2 : List ComposedParameter)
    (p : ComposedParameter) (acc : List (String × ParamValue) × Option ParamValue)
    (hp : p.schema.name = "__proto__") (h : ∀ q ∈ l2, q.schema.name ≠ "__proto__") :
    ((l1 ++ p :: l2).foldl (extractParameter lib pathKeys pathMatch req) acc).2 =
      some (paramValueOf lib pathKeys pathMatch req p) := by
  rw [List.foldl_append, List.foldl_cons]
  have hstep : ∀ (ps : List ComposedParameter)
      (a : List (String × ParamValue) × Option ParamValue),
      (∀ q ∈ ps, q.schema.name ≠ "__proto__") →
      (ps.foldl (extractParameter lib pathKeys pathMatch req) a).2 = a.2 := by
    intro ps
    induction ps with
    | nil => intro a _; rfl
    | cons q qs ih =>
      intro a hq
      simp only [List.foldl_cons]
      rw [ih _ (fun x hx => hq x (List.mem_cons_of_mem _ hx)), extractParameter_eq]
      simp [assignParam, hq q (List.mem_cons_self _ _)]
  rw [hstep l2 _ h, extractParameter_eq]
  simp [assignParam, hp]

theorem exists_last_named (ps : List ComposedParameter) (name : String)
    (h : ∃ p ∈ ps, p.schema.name = name) :
    ∃ l1 p l2, ps = l1 ++ p :: l2 ∧ p.schema.name = name ∧
      ∀ q ∈ l2, q.schema.name ≠ name := by
  induction ps with
  | nil => obtain ⟨p, hp, _⟩ := h; cases hp
  | cons x xs ih =>
    by_cases hx : ∃ p ∈ xs, p.schema.name = name
    · obtain ⟨l1, p, l2, hsplit, hn, hl2⟩ := ih hx
      exact ⟨x :: l1, p, l2, by rw [hsplit]; rfl, hn, hl2⟩
    · obtain ⟨p, hp, hn⟩ := h
      rcases List.mem_cons.1 hp with h1 | h1
      · subst h1
        exact ⟨[], p, xs, rfl, hn, fun q hq hqn => hx ⟨q, hq, hqn⟩⟩
      · exact absurd ⟨p, h1, hn⟩ hx

theorem keys_objSet {α : Type} (o : List (String × α)) (k : String) (v : α) :
    (objSet o k v).map Prod.fst =
      if k ∈ o.map Prod.fst then o.map Prod.fst else o.map Prod.fst ++ [k] := by
  induction o with
  | nil => simp [objSet]
  | cons x xs ih =>
    obtain ⟨k0, v0⟩ := x
    by_cases h : k0 = k
    · subst h; simp [objSet]
    · have hb : (k0 == k) = false := by simpa using h
      have hne : ¬ k = k0 := fun hh => h hh.symm
      have hset : objSet ((k0, v0) :: xs) k v = (k0, v0) :: objSet xs k v := by
        simp [objSet, hb]
      rw [hset, List.map_cons, ih]
      by_cases hk : k ∈ xs.map Prod.fst
      · have hk1 : k ∈ ((k0, v0) :: xs).map Prod.fst := List.mem_cons_of_mem _ hk
        rw [if_pos hk, if_pos hk1]; rfl
      · have hk2 : k ∉ ((k0, v0) :: xs).map Prod.fst := by
          intro hm
          rcases List.mem_cons.1 hm with h1 | h1
          · exact hne h1
          · exact hk h1
        rw [if_neg hk, if_neg hk2]; rfl

theorem extract_fold_nodup (lib : Lib) (pathKeys : List Key) (pathMatch : Option (List String))
    (req : Request) (ps : List ComposedParameter)
    (acc : List (String × ParamValue) × Option ParamValue)
    (h : (acc.1.map Prod.fst).Nodup) :
    ((ps.foldl (extractParameter lib pathKeys pathMatch req) acc).1.map Prod.fst).Nodup := by
  induction ps generalizing acc with
  | nil => exact h
  | cons p ps ih =>
    simp only [List.foldl_cons]
    apply ih
    rw [extractParameter_eq]
    unfold assignParam
    split_ifs with hproto
    · exact h
    · simp only
      rw [keys_objSet]
      split_ifs with hk
      · exact h
      · rw [List.nodup_append]
        exact ⟨h, List.nodup_singleton _, by
          intro a ha hb
          simp only [List.mem_singleton] at hb
          exact hk (hb ▸ ha)⟩

/-- What holds of `params` for every name but `__proto__`: after a run with no parser error on
metadata whose `params` is empty, `params` has one own entry per name, a name has an entry exactly
when it is not `__proto__` and a composed parameter bears it, the entry of such a name is that of
the last composed parameter bearing it, and the last parameter named `__proto__` is left as the
prototype of `params`. -/
theorem params_keyed_by_other_names (lib : Lib) (md : Metadata) (pathKeys : List Key)
    (pathMatch : Option (List String)) (req : Request) (parameters : List ComposedParameter)
    (hparams : md.operationParameters = some parameters) (hempty : md.params = [])
    (hok : (processOperationParameters lib md pathKeys pathMatch req).next = none) :
    ∃ md1, (processOperationParameters lib md pathKeys pathMatch req).req.swagger = some md1 ∧
      (md1.params.map Prod.fst).Nodup ∧
      (∀ name, (objGet md1.params name).isSome = true ↔
        name ≠ "__proto__" ∧ ∃ p ∈ parameters, p.schema.name = name) ∧
      (∀ l1 p l2, parameters = l1 ++ p :: l2 → p.schema.name ≠ "__proto__" →
        (∀ q ∈ l2, q.schema.name ≠ p.schema.name) →
        ∃ pv, objGet md1.params p.schema.name = some pv ∧
          pv.path = p.path ∧ pv.schema = p.schema) ∧
      (∀ l1 p l2, parameters = l1 ++ p :: l2 → p.schema.name = "__proto__" →
        (∀ q ∈ l2, q.schema.name ≠ "__proto__") →
        ∃ pv, md1.paramsPrototype = some pv ∧ pv.path = p.path ∧ pv.schema = p.schema) := by
  obtain ⟨apiPath, path, params0, so, op, opPath, opParams, sec, proto0⟩ := md
  simp only at hparams hempty
  subst hparams
  subst hempty
  unfold processOperationParameters at hok ⊢
  simp only at hok ⊢
  cases hr : runParsers lib (requestParsers lib req.contentType parameters) req with
  | mk r n =>
    rw [hr] at hok
    cases n with
    | some err => cases hok
    | none =>
      refine ⟨_, rfl, ?_, ?_, ?_, ?_⟩
      · exact extract_fold_nodup lib pathKeys pathMatch r parameters ([], proto0) List.nodup_nil
      · intro name
        constructor
        · intro hsome
          simp only at hsome
          constructor
          · intro hn
            rw [extract_fold_absent lib pathKeys pathMatch r parameters ([], proto0) name
              (fun _ _ => Or.inr hn)] at hsome
            simp [objGet] at hsome
          · by_contra hno
            have habs : ∀ q ∈ parameters, q.schema.name ≠ name ∨ name = "__proto__" :=
              fun q hq => Or.inl (fun hn => hno ⟨q, hq, hn⟩)
            rw [extract_fold_absent lib pathKeys pathMatch r parameters ([], proto0) name
              habs] at hsome
            simp [objGet] at hsome
        · rintro ⟨hne, hex⟩
          obtain ⟨l1, p, l2, hsplit, hn, hl2⟩ := exists_last_named parameters name hex
          have hget := extract_fold_last lib pathKeys pathMatch r l1 l2 p ([], proto0)
            (by rw [hn]; exact hne) (fun q hq => by rw [hn]; exact hl2 q hq)
          simp only
          rw [hsplit, ← hn, hget]
          rfl
      · intro l1 p l2 hsplit hne hl2
        refine ⟨paramValueOf lib pathKeys pathMatch r p, ?_, rfl, rfl⟩
        simp only
        rw [hsplit]
        exact extract_fold_last lib pathKeys pathMatch r l1 l2 p ([], proto0) hne hl2
      · intro l1 p l2 hsplit hp hl2
        refine ⟨paramValueOf lib pathKeys pathMatch r p, ?_, rfl, rfl⟩
        simp only
        rw [hsplit]
        exact extract_fold_prototype lib pathKeys pathMatch r l1 l2 p ([], proto0) hp hl2

/-- C23 (failing input). The composed list bears the names `limit` and `__proto__`; after a run
with no parser error `params` has the single key `limit`, and the record of the parameter named
`__proto__` has become the prototype of `params` instead of an entry. -/
theorem proto_named_parameter_gets_no_entry :
    (processOperationParameters Reference.lib Sample.protoNamed [] none
      (Sample.request "GET" "/pets")).next = none ∧
    Sample.protoNamed.operationParameters.map (fun ps => ps.map (fun c => c.schema.name)) =
      some ["limit", "__proto__"] ∧
    (processOperationParameters Reference.lib Sample.protoNamed [] none
      (Sample.request "GET" "/pets")).req.swagger.map
      (fun md => (md.params.map Prod.fst, md.paramsPrototype.map (fun pv => pv.schema))) =
      some (["limit"], some Sample.protoQuery) := by
  decide

/-! ## The shape of express-style paths and the literal paths -/

theorem expressStylePath_eq (lib : Lib) (basePath : Option String) (apiPath : String) :
    expressStylePath lib basePath apiPath =
      String.mk (replaceBraces
        (slashDelimited (basePathname lib basePath) ++ withoutLeadingSlash apiPath.data)) := by
  apply String.ext
  show (expressStylePath lib basePath apiPath).data = _
  unfold expressStylePath
  simp only
  rw [substring1_eq, normalize_eq]
  rfl

theorem basePathname_of_unchanged (lib : Lib) (basePath : Option String)
    (h : lib.pathname (baseOrRoot basePath) = some (baseOrRoot basePath)) :
    basePathname lib basePath = (baseOrRoot basePath).data := by
  unfold basePathname
  rw [h]
  simp [baseOrRoot_ne_empty]

/-- C22 (amended). For every library, base path and template the result is the pathname parseurl
reports for the base path (`/` for an absent or empty base path or a missing pathname; the base
path itself when parseurl reports it unchanged), made to begin and to end with `/`, followed by
the template without one leading `/`, with every `{` replaced by `:` and every `}` removed; it
begins with `/`, holds no `{` and no `}`, and a placeholder `{name}` of the template appears in it
as `:name`. -/
theorem expressStylePath_shape (lib : Lib) (basePath : Option String) (apiPath : String) :
    expressStylePath lib basePath apiPath =
      String.mk (replaceBraces
        (slashDelimited (basePathname lib basePath) ++ withoutLeadingSlash apiPath.data)) ∧
    (lib.pathname (baseOrRoot basePath) = some (baseOrRoot basePath) →
      basePathname lib basePath = (baseOrRoot basePath).data) ∧
    (expressStylePath lib basePath apiPath).data.head? = some '/' ∧
    '{' ∉ (expressStylePath lib basePath apiPath).data ∧
    '}' ∉ (expressStylePath lib basePath apiPath).data ∧
    (∀ pre name post, apiPath.data = pre ++ '{' :: name ++ '}' :: post →
      '{' ∉ name → '}' ∉ name →
      ∃ a b, (expressStylePath lib basePath apiPath).data = a ++ ':' :: name ++ b) := by
  have hb : (expressStylePath lib basePath apiPath).data = replaceBraces
      (slashDelimited (basePathname lib basePath) ++ withoutLeadingSlash apiPath.data) := by
    rw [expressStylePath_eq]
  refine ⟨expressStylePath_eq lib basePath apiPath, basePathname_of_unchanged lib basePath,
    ?_, ?_, ?_, ?_⟩
  · obtain ⟨rest, hrest⟩ := slashDelimited_head (basePathname lib basePath)
    rw [hb, hrest]
    simp [replaceBraces]
  · rw [hb]; exact replaceBraces_no_open _
  · rw [hb]; exact replaceBraces_no_close _
  · intro pre name post hsplit h1 h2
    obtain ⟨pre2, hpre2⟩ := withoutLeadingSlash_placeholder pre name post
    rw [hb, hsplit, hpre2]
    refine ⟨replaceBraces (slashDelimited (basePathname lib basePath) ++ pre2),
      replaceBraces post, ?_⟩
    have : slashDelimited (basePathname lib basePath) ++ (pre2 ++ '{' :: name ++ '}' :: post) =
        (slashDelimited (basePathname lib basePath) ++ pre2) ++ '{' :: name ++ '}' :: post := by
      simp
    rw [this, replaceBraces_placeholder _ _ _ h1 h2]

/-- Witness of C22 (amended): the query string of the base path is gone, both slashes are added
and the placeholder is rewritten. -/
theorem expressStylePath_shape_witness :
    expressStylePath Reference.lib (some "v1?x=1") "/pets/{id}" = "/v1/pets/:id" ∧
    basePathname Reference.lib (some "v1") = "v1".data ∧
    ∃ a b, (expressStylePath Reference.lib (some "v1?x=1") "/pets/{id}").data =
      a ++ ':' :: "id".data ++ b :=
  ⟨(expressStylePath_shape Reference.lib (some "v1?x=1") "/pets/{id}").1.trans (by decide),
   (expressStylePath_shape Reference.lib (some "v1") "/pets/{id}").2.1 (by decide),
   (expressStylePath_shape Reference.lib (some "v1?x=1") "/pets/{id}").2.2.2.2.2
     "/pets/".data "id".data [] (by decide) (by decide) (by decide)⟩

/-- Counterexample to C22: for the base path `/v1?x=1` the result is built from `/v1`, not from
the base path normalized to begin and to end with `/`. -/
theorem base_path_query_is_dropped :
    expressStylePath Reference.lib (some "/v1?x=1") "/p" = "/v1/p" ∧
    String.mk (replaceBraces
      (slashDelimited "/v1?x=1".data ++ withoutLeadingSlash "/p".data)) = "/v1?x=1/p" := by
  decide

/-- C3 (amended). After the cache is built, for a declared path P without placeholder whose
express-style path no other declared path shares, a request whose path is the express-style path
of P is matched, by the exact-key lookup, to the entry built for P. That path is the pathname
parseurl reports for the base path, made to begin and to end with `/`, followed by P without one
leading `/`, braces rewritten; it is P itself when the document has no base path, parseurl
reports `/` for `/`, and P begins with `/` and holds no `}`. -/
theorem literal_path_match (lib : Lib) (d resolved : Document) (apiCache : ApiCache)
    (P : String) (item : PathItem)
    (hres : lib.resolve d = some resolved)
    (hbuild : processSwaggerDocuments lib (.doc d) = .ok apiCache)
    (hP : (P, item) ∈ resolved.paths.getD [])
    (hliteral : '{' ∉ P.data)
    (huniq : ∀ q ∈ resolved.paths.getD [],
      expressStylePath lib resolved.basePath q.1 = expressStylePath lib resolved.basePath P →
        q = (P, item)) :
    (∃ e, selectEntry apiCache (expressStylePath lib resolved.basePath P) = some (e, none) ∧
      e.apiPath = P ∧ e.path = item) ∧
    expressStylePath lib resolved.basePath P =
      String.mk (replaceBraces
        (slashDelimited (basePathname lib resolved.basePath) ++ withoutLeadingSlash P.data)) ∧
    (resolved.basePath = none → lib.pathname "/" = some "/" →
      startsWithChar P.data '/' = true → '}' ∉ P.data →
      expressStylePath lib resolved.basePath P = P) := by
  refine ⟨?_, expressStylePath_eq lib resolved.basePath P, ?_⟩
  · simp only [processSwaggerDocuments, hres] at hbuild
    obtain ⟨e, he, hap, hpa, _⟩ :=
      buildCache_entry lib d resolved _ [] apiCache P item hbuild hP huniq
    exact ⟨e, by simp [selectEntry, he], hap, hpa⟩
  · intro hb hroot hslash h2
    rw [hb]
    exact expressStylePath_root lib P hroot hslash hliteral h2

/-- Witness of C3: the literal path `/pets` of a document without base path. -/
theorem literal_path_match_witness :
    ∃ e, selectEntry (Sample.cacheOf Sample.petstore) "/pets" = some (e, none) ∧
      e.apiPath = "/pets" ∧ e.path = Sample.petsItem :=
  (literal_path_match Reference.lib Sample.petstore Sample.petstore
    (Sample.cacheOf Sample.petstore) "/pets" Sample.petsItem rfl rfl (by decide) (by decide)
    (by decide)).1

end SwaggerTools
